import Mathlib

/-!
# Work-Fort/Discord: the setup and sync commands

A shallow embedding of `internal/config`, `internal/setup` and `internal/sync`.
The Discord service reached through `discordgo` is modelled as a guild state
plus a trace of REST calls; what the service answers to each call is an input
(`World.resp`), so every statement ranges over every pattern of failures.
-/

namespace Discord

/-- A Go `error` value: `none` is `nil`, `some msg` carries the message. -/
abbrev GoError := Option String

/-- A Go `map[string]V`, kept as an association list. A Go map holds each key
once; `GoMap.insert` keeps that, and maps read from YAML are assumed to. -/
abbrev GoMap (V : Type) := List (String × V)

/-- The Go assignment `m[k] = v`. -/
def GoMap.insert {V : Type} : GoMap V → String → V → GoMap V
  | [], k, v => [(k, v)]
  | (k', v') :: m, k, v =>
    if k' = k then (k, v) :: m else (k', v') :: GoMap.insert m k v

/-! ## discordgo: constants, payloads, calls -/

namespace discordgo

/-! Permission bits, channel types and the overwrite type, with the values
`github.com/bwmarrin/discordgo` gives them (the Discord API flags). The masks
the program builds stay below 2^19, so `int64` arithmetic is arithmetic on `Nat`. -/

def PermissionAddReactions : Nat := 0x0000000000000040
def PermissionAdministrator : Nat := 0x0000000000000008
def PermissionSendMessages : Nat := 0x0000000000000800
def PermissionManageMessages : Nat := 0x0000000000002000
def PermissionEmbedLinks : Nat := 0x0000000000004000
def PermissionAttachFiles : Nat := 0x0000000000008000
def PermissionReadMessageHistory : Nat := 0x0000000000010000
def PermissionUseExternalEmojis : Nat := 0x0000000000040000

def ChannelTypeGuildText : Nat := 0
def ChannelTypeGuildVoice : Nat := 2
def ChannelTypeGuildCategory : Nat := 4
def ChannelTypeGuildForum : Nat := 15

def PermissionOverwriteTypeRole : Nat := 0

/-- A role as the service reports it. -/
structure Role where
  ID : String
  Name : String
  Color : Int
  Permissions : Nat
  Hoist : Bool
  Mentionable : Bool
  deriving DecidableEq, Repr

/-- A channel (or category) as the service reports it. -/
structure Channel where
  ID : String
  Name : String
  Type_ : Nat
  Topic : String
  Position : Int
  ParentID : String
  deriving DecidableEq, Repr

structure PermissionOverwrite where
  ChannelID : String
  TargetID : String
  Type_ : Nat
  Allow : Nat
  Deny : Nat
  deriving DecidableEq, Repr

structure Webhook where
  ID : String
  ChannelID : String
  Name : String
  deriving DecidableEq, Repr

structure RoleParams where
  Name : String
  Color : Int
  Permissions : Nat
  Hoist : Bool
  Mentionable : Bool
  deriving DecidableEq, Repr

structure GuildChannelCreateData where
  Name : String
  Type_ : Nat
  Topic : String
  Position : Int
  ParentID : String
  deriving DecidableEq, Repr

/-- The REST calls of a `discordgo.Session` on roles, channels, permission
overwrites and webhooks: the two reads and every write the service offers. -/
inductive Call where
  | GuildRoles (guildID : String)
  | GuildRoleCreate (guildID : String) (params : RoleParams)
  | GuildRoleEdit (guildID roleID : String) (params : RoleParams)
  | GuildRoleDelete (guildID roleID : String)
  | GuildChannels (guildID : String)
  | GuildChannelCreateComplex (guildID : String) (data : GuildChannelCreateData)
  | ChannelEditComplex (channelID : String) (data : GuildChannelCreateData)
  | ChannelDelete (channelID : String)
  | ChannelPermissionSet (channelID targetID : String) (targetType : Nat) (allow deny : Nat)
  | ChannelPermissionDelete (channelID targetID : String)
  | WebhookCreate (channelID name avatar : String)
  | WebhookDelete (webhookID : String)
  deriving DecidableEq, Repr

/-- What the service answers: an error, or success with the ID of the resource
the call created (ignored for calls that create nothing). -/
inductive Reply where
  | ok (id : String)
  | error (msg : String)
  deriving DecidableEq, Repr

/-- The remote state of one guild. -/
structure Guild where
  roles : List Role
  channels : List Channel
  overwrites : List PermissionOverwrite
  webhooks : List Webhook
  deriving DecidableEq, Repr

/-- The effect of a call the service accepted; `id` is the ID it assigned. -/
def Guild.apply (g : Guild) (c : Call) (id : String) : Guild :=
  match c with
  | .GuildRoles _ => g
  | .GuildChannels _ => g
  | .GuildRoleCreate _ p =>
    { g with roles := g.roles ++ [⟨id, p.Name, p.Color, p.Permissions, p.Hoist, p.Mentionable⟩] }
  | .GuildRoleEdit _ rid p =>
    { g with roles := g.roles.map fun r =>
        if r.ID = rid then ⟨rid, p.Name, p.Color, p.Permissions, p.Hoist, p.Mentionable⟩ else r }
  | .GuildRoleDelete _ rid => { g with roles := g.roles.filter fun r => r.ID ≠ rid }
  | .GuildChannelCreateComplex _ d =>
    { g with channels := g.channels ++ [⟨id, d.Name, d.Type_, d.Topic, d.Position, d.ParentID⟩] }
  | .ChannelEditComplex cid d =>
    { g with channels := g.channels.map fun ch =>
        if ch.ID = cid then ⟨cid, d.Name, d.Type_, d.Topic, d.Position, d.ParentID⟩ else ch }
  | .ChannelDelete cid =>
    { g with channels := g.channels.filter fun ch => ch.ID ≠ cid
             overwrites := g.overwrites.filter fun o => o.ChannelID ≠ cid
             webhooks := g.webhooks.filter fun h => h.ChannelID ≠ cid }
  | .ChannelPermissionSet cid tid ty allow deny =>
    { g with overwrites :=
        (g.overwrites.filter fun o => ¬ (o.ChannelID = cid ∧ o.TargetID = tid))
          ++ [⟨cid, tid, ty, allow, deny⟩] }
  | .ChannelPermissionDelete cid tid =>
    { g with overwrites := g.overwrites.filter fun o => ¬ (o.ChannelID = cid ∧ o.TargetID = tid) }
  | .WebhookCreate cid name _ => { g with webhooks := g.webhooks ++ [⟨id, cid, name⟩] }
  | .WebhookDelete wid => { g with webhooks := g.webhooks.filter fun h => h.ID ≠ wid }

/-- One REST call together with the service's answer. -/
structure Event where
  call : Call
  reply : Reply
  deriving DecidableEq, Repr

/-- A session: the guild it talks to and the calls made so far, oldest first. -/
structure Session where
  guild : Guild
  trace : List Event
  deriving DecidableEq, Repr

end discordgo

open discordgo

/-- Everything the program cannot control: whether `discordgo.New` and
`session.Open` fail, what the service answers to the n-th REST call of the run,
and the integer `fmt.Sscanf(s, "#%x", &color)` leaves in `color`. -/
structure World where
  newErr : GoError
  openErr : GoError
  resp : Nat → Reply
  sscanfHex : String → Int

/-- Issue one REST call: it is appended to the trace with the service's answer,
and an accepted call takes effect on the guild. -/
def discordgo.Session.request (w : World) (s : Session) (c : Call) : Session × Reply :=
  let r := w.resp s.trace.length
  (⟨match r with
      | .ok id => s.guild.apply c id
      | .error _ => s.guild,
    s.trace ++ [⟨c, r⟩]⟩, r)

/-! ## internal/config -/

namespace config

structure ForumTag where
  Name : String
  Emoji : String
  deriving DecidableEq, Repr

structure Channel where
  Name : String
  Type_ : String
  Topic : String
  Position : Int
  Permissions : Option (GoMap (GoMap Bool))
  Tags : List ForumTag
  deriving DecidableEq, Repr

structure Category where
  Name : String
  Position : Int
  Channels : List Channel
  deriving DecidableEq, Repr

structure ChannelsConfig where
  Categories : List Category
  deriving DecidableEq, Repr

structure Role where
  Name : String
  Color : String
  Permissions : List String
  Hoist : Bool
  Mentionable : Bool
  Description : String
  deriving DecidableEq, Repr

structure RolesConfig where
  Roles : List Role
  deriving DecidableEq, Repr

structure GitHubIntegration where
  Enabled : Bool
  TargetChannel : String
  Events : List String
  deriving DecidableEq, Repr

structure IntegrationsConfig where
  GitHub : Option GitHubIntegration
  deriving DecidableEq, Repr

structure ServerConfig where
  Name : String
  Description : String
  VerificationLevel : String
  DefaultNotificationLevel : String
  ExplicitContentFilter : String
  Community : Bool
  Discoverable : Bool
  VanityURL : String
  deriving DecidableEq, Repr

structure Config where
  Server : ServerConfig
  Channels : ChannelsConfig
  Roles : RolesConfig
  Integrations : IntegrationsConfig
  BotToken : String
  GuildID : String
  deriving DecidableEq, Repr

/-- What `Load` reads: two environment variables and, for each of the four
YAML files, what `loadYAML` yields (an error, or the decoded value). -/
structure Files where
  DISCORD_BOT_TOKEN : String
  DISCORD_GUILD_ID : String
  server : Except String ServerConfig
  channels : Except String ChannelsConfig
  roles : Except String RolesConfig
  integrations : Except String IntegrationsConfig

def Load (fs : Files) : Except String Config :=
  if fs.DISCORD_BOT_TOKEN = "" then
    .error "DISCORD_BOT_TOKEN environment variable is required"
  else if fs.DISCORD_GUILD_ID = "" then
    .error "DISCORD_GUILD_ID environment variable is required"
  else
    match fs.server with
    | .error err => .error ("loading server config: " ++ err)
    | .ok server =>
    match fs.channels with
    | .error err => .error ("loading channels config: " ++ err)
    | .ok channels =>
    match fs.roles with
    | .error err => .error ("loading roles config: " ++ err)
    | .ok roles =>
    match fs.integrations with
    | .error err => .error ("loading integrations config: " ++ err)
    | .ok integrations =>
      .ok ⟨server, channels, roles, integrations, fs.DISCORD_BOT_TOKEN, fs.DISCORD_GUILD_ID⟩

end config

open config (Config)

/-! ## internal/setup -/

namespace setup

def permissionValue (name : String) : Nat :=
  let perms : GoMap Nat := [
    ("administrator", PermissionAdministrator),
    ("send_messages", PermissionSendMessages),
    ("embed_links", PermissionEmbedLinks),
    ("attach_files", PermissionAttachFiles),
    ("read_message_history", PermissionReadMessageHistory),
    ("use_external_emojis", PermissionUseExternalEmojis),
    ("add_reactions", PermissionAddReactions),
    ("manage_messages", PermissionManageMessages)]
  match perms.lookup name with
  | some val => val
  | none => 0

/-- The table inside `permissionValue`. -/
def permsTable : GoMap Nat := [
    ("administrator", PermissionAdministrator),
    ("send_messages", PermissionSendMessages),
    ("embed_links", PermissionEmbedLinks),
    ("attach_files", PermissionAttachFiles),
    ("read_message_history", PermissionReadMessageHistory),
    ("use_external_emojis", PermissionUseExternalEmojis),
    ("add_reactions", PermissionAddReactions),
    ("manage_messages", PermissionManageMessages)]

/-- The `RoleParams` that `setupRoles` builds for a role it creates. -/
def roleParams (w : World) (roleCfg : config.Role) : RoleParams :=
  let color := w.sscanfHex roleCfg.Color
  let permissions := roleCfg.Permissions.foldl (fun acc perm => acc ||| permissionValue perm) 0
  ⟨roleCfg.Name, color, permissions, roleCfg.Hoist, roleCfg.Mentionable⟩

/-- The loop `for _, roleCfg := range cfg.Roles.Roles` of `setupRoles`. -/
def setupRolesLoop (w : World) (cfg : Config) (roleMap : GoMap discordgo.Role) :
    List config.Role → Session → Session × GoError
  | [], s => (s, none)
  | roleCfg :: rest, s =>
    if (roleMap.lookup roleCfg.Name).isSome then
      setupRolesLoop w cfg roleMap rest s
    else
      match s.request w (.GuildRoleCreate cfg.GuildID (roleParams w roleCfg)) with
      | (s1, .error err) => (s1, some ("creating role " ++ roleCfg.Name ++ ": " ++ err))
      | (s1, .ok _) => setupRolesLoop w cfg roleMap rest s1

def setupRoles (w : World) (s : Session) (cfg : Config) : Session × GoError :=
  match s.request w (.GuildRoles cfg.GuildID) with
  | (s1, .error err) => (s1, some ("fetching existing roles: " ++ err))
  | (s1, .ok _) =>
    let existingRoles := s.guild.roles
    let roleMap : GoMap discordgo.Role :=
      existingRoles.foldl (fun m role => GoMap.insert m role.Name role) []
    setupRolesLoop w cfg roleMap cfg.Roles.Roles s1

/-- The loop `for perm, value := range everyonePerms` of `applyChannelPermissions`:
the pair (allow, deny). -/
def overwriteMasks (everyonePerms : GoMap Bool) : Nat × Nat :=
  everyonePerms.foldl (fun acc pv =>
    let permValue := permissionValue pv.1
    if pv.2 then (acc.1 ||| permValue, acc.2) else (acc.1, acc.2 ||| permValue)) (0, 0)

def applyChannelPermissions (w : World) (s : Session) (guildID channelID : String)
    (perms : GoMap (GoMap Bool)) : Session × GoError :=
  match perms.lookup "everyone" with
  | none => (s, none)
  | some everyonePerms =>
    let allow := (overwriteMasks everyonePerms).1
    let deny := (overwriteMasks everyonePerms).2
    match s.request w
        (.ChannelPermissionSet channelID guildID PermissionOverwriteTypeRole allow deny) with
    | (s1, .error err) => (s1, some ("setting @everyone permissions: " ++ err))
    | (s1, .ok _) => (s1, none)

def addForumTags (_s : Session) (_channelID : String) (_tags : List config.ForumTag) : GoError :=
  none

/-- The `channelType` chosen for a configured channel. -/
def channelType (ch : config.Channel) : Nat :=
  if ch.Type_ = "voice" then ChannelTypeGuildVoice
  else if ch.Type_ = "forum" then ChannelTypeGuildForum
  else ChannelTypeGuildText

/-- The `channelData` built for a configured channel under a created category. -/
def channelData (ch : config.Channel) (categoryID : String) : GuildChannelCreateData :=
  ⟨ch.Name, channelType ch, ch.Topic, ch.Position, categoryID⟩

/-- The `Data` of the category-create call. -/
def categoryData (category : config.Category) : GuildChannelCreateData :=
  ⟨category.Name, ChannelTypeGuildCategory, "", category.Position, ""⟩

/-- The inner loop `for _, ch := range category.Channels` of `setupChannels`. -/
def setupChannelsInner (w : World) (cfg : Config) (categoryID : String) :
    List config.Channel → Session → Session × GoError
  | [], s => (s, none)
  | ch :: rest, s =>
    match s.request w (.GuildChannelCreateComplex cfg.GuildID (channelData ch categoryID)) with
    | (s1, .error err) => (s1, some ("creating channel " ++ ch.Name ++ ": " ++ err))
    | (s1, .ok channelID) =>
      match (match ch.Permissions with
             | some perms => applyChannelPermissions w s1 cfg.GuildID channelID perms
             | none => (s1, none)) with
      | (s2, some err) => (s2, some ("applying permissions to " ++ ch.Name ++ ": " ++ err))
      | (s2, none) =>
        match (if ch.Type_ = "forum" ∧ ch.Tags.length > 0
               then addForumTags s2 channelID ch.Tags else none) with
        | some err => (s2, some ("adding tags to forum " ++ ch.Name ++ ": " ++ err))
        | none => setupChannelsInner w cfg categoryID rest s2

/-- The loop `for _, category := range cfg.Channels.Categories` of `setupChannels`. -/
def setupChannelsLoop (w : World) (cfg : Config) : List config.Category → Session → Session × GoError
  | [], s => (s, none)
  | category :: rest, s =>
    match s.request w (.GuildChannelCreateComplex cfg.GuildID (categoryData category)) with
    | (s1, .error err) => (s1, some ("creating category " ++ category.Name ++ ": " ++ err))
    | (s1, .ok categoryID) =>
      match setupChannelsInner w cfg categoryID category.Channels s1 with
      | (s2, some err) => (s2, some err)
      | (s2, none) => setupChannelsLoop w cfg rest s2

def setupChannels (w : World) (s : Session) (cfg : Config) : Session × GoError :=
  setupChannelsLoop w cfg cfg.Channels.Categories s

/-- The loop of `setupIntegrations` that looks for the target channel: the ID
of the first channel with that name, `""` when there is none. -/
def findTargetChannel (target : String) : List discordgo.Channel → String
  | [] => ""
  | ch :: rest => if ch.Name = target then ch.ID else findTargetChannel target rest

def setupIntegrations (w : World) (s : Session) (cfg : Config) : Session × GoError :=
  match cfg.Integrations.GitHub with
  | none => (s, none)
  | some gh =>
    if gh.Enabled then
      match s.request w (.GuildChannels cfg.GuildID) with
      | (s1, .error err) => (s1, some ("fetching channels: " ++ err))
      | (s1, .ok _) =>
        let channels := s.guild.channels
        let targetChannelID := findTargetChannel gh.TargetChannel channels
        if targetChannelID = "" then
          (s1, some ("target channel not found: " ++ gh.TargetChannel))
        else
          match s1.request w (.WebhookCreate targetChannelID "GitHub" "") with
          | (s2, .error err) => (s2, some ("creating GitHub webhook: " ++ err))
          | (s2, .ok _) => (s2, none)
    else (s, none)

/-- The command `setup`, run against guild `g`. `Open` and `Close` manage the
gateway connection and are not REST calls: they leave no event in the trace. -/
def Run (w : World) (g : Guild) (cfg : Config) : Session × GoError :=
  match w.newErr with
  | some err => (⟨g, []⟩, some ("creating Discord session: " ++ err))
  | none =>
    match w.openErr with
    | some err => (⟨g, []⟩, some ("opening Discord connection: " ++ err))
    | none =>
      match setupRoles w ⟨g, []⟩ cfg with
      | (s1, some err) => (s1, some ("setting up roles: " ++ err))
      | (s1, none) =>
        match setupChannels w s1 cfg with
        | (s2, some err) => (s2, some ("setting up channels: " ++ err))
        | (s2, none) =>
          match setupIntegrations w s2 cfg with
          | (s3, some err) => (s3, some ("setting up integrations: " ++ err))
          | (s3, none) => (s3, none)

end setup

/-! ## internal/sync -/

namespace sync

/-- The command `sync`, run against guild `g`. -/
def Run (w : World) (g : Guild) (_cfg : Config) : Session × GoError :=
  match w.newErr with
  | some err => (⟨g, []⟩, some ("creating Discord session: " ++ err))
  | none =>
    match w.openErr with
    | some err => (⟨g, []⟩, some ("opening Discord connection: " ++ err))
    | none => (⟨g, []⟩, none)

end sync

/-! ## Classifying calls -/

/-- A call that changes the remote state: every call but the two reads. -/
def discordgo.Call.isMutating : Call → Bool
  | .GuildRoles _ => false
  | .GuildChannels _ => false
  | _ => true

/-- Role creates, category/channel creates, permission-overwrite sets and
webhook creates. -/
def discordgo.Call.isCreateOrSet : Call → Bool
  | .GuildRoleCreate _ _ => true
  | .GuildChannelCreateComplex _ _ => true
  | .ChannelPermissionSet _ _ _ _ _ => true
  | .WebhookCreate _ _ _ => true
  | _ => false

/-- Calls that delete a role, a channel, an overwrite or a webhook. -/
def discordgo.Call.isDelete : Call → Bool
  | .GuildRoleDelete _ _ => true
  | .ChannelDelete _ => true
  | .ChannelPermissionDelete _ _ => true
  | .WebhookDelete _ => true
  | _ => false

/-- Calls that update an existing role or channel in place. -/
def discordgo.Call.isUpdate : Call → Bool
  | .GuildRoleEdit _ _ _ => true
  | .ChannelEditComplex _ _ => true
  | _ => false

/-- The ID of the existing role a call changes or removes. -/
def discordgo.Call.targetRole : Call → Option String
  | .GuildRoleEdit _ roleID _ => some roleID
  | .GuildRoleDelete _ roleID => some roleID
  | _ => none

/-- The ID of the existing channel a call acts on. -/
def discordgo.Call.targetChannel : Call → Option String
  | .ChannelEditComplex channelID _ => some channelID
  | .ChannelDelete channelID => some channelID
  | .ChannelPermissionSet channelID _ _ _ _ => some channelID
  | .ChannelPermissionDelete channelID _ => some channelID
  | .WebhookCreate channelID _ _ => some channelID
  | _ => none

/-- The role (or member) ID a permission-overwrite call is addressed to. -/
def discordgo.Call.overwriteTarget : Call → Option String
  | .ChannelPermissionSet _ targetID _ _ _ => some targetID
  | _ => none

def discordgo.Reply.isOk : Reply → Bool
  | .ok _ => true
  | .error _ => false

/-! ## Sample inputs -/

namespace samples

/-- A service that accepts every call; the n-th call gets an ID of n+1 letters. -/
def okWorld : World :=
  ⟨none, none, fun n => .ok (String.mk (List.replicate (n + 1) 'i')), fun _ => 0⟩

/-- A service that accepts every call and hands out IDs made of another letter. -/
def okWorldJ : World :=
  ⟨none, none, fun n => .ok (String.mk (List.replicate (n + 1) 'j')), fun _ => 0⟩

/-- A service that rejects the second call of the run and accepts the others. -/
def failWorld : World :=
  ⟨none, none,
   fun n => if n = 1 then .error "rate limited" else .ok (String.mk (List.replicate (n + 1) 'i')),
   fun _ => 0⟩

def emptyGuild : Guild := ⟨[], [], [], []⟩

def server : config.ServerConfig := ⟨"WorkFort", "", "", "", "", false, false, ""⟩

def everyonePerms : GoMap (GoMap Bool) :=
  [("everyone", [("send_messages", false), ("add_reactions", true)])]

/-- Roles `[Admin, Member]`, no channels, no integration. -/
def cfgRoles : Config :=
  { Server := server
    Channels := ⟨[]⟩
    Roles := ⟨[⟨"Admin", "#ff0000", ["administrator"], true, false, ""⟩,
               ⟨"Member", "#00ff00", ["send_messages"], false, true, ""⟩]⟩
    Integrations := ⟨none⟩
    BotToken := "token"
    GuildID := "g" }

/-- A guild whose only role is `Member`. -/
def guildMember : Guild :=
  ⟨[⟨"m", "Member", 0, 0, false, false⟩], [], [], []⟩

end samples

/-- The `everyone` entry of a configured channel's permissions, if it has one:
what `applyChannelPermissions` reads. -/
def setup.everyoneOf (ch : config.Channel) : Option (GoMap Bool) :=
  ch.Permissions.bind fun perms => List.lookup "everyone" perms

/-- A call that creates a category. -/
def discordgo.Call.isCategoryCreate : Call → Bool
  | .GuildChannelCreateComplex _ d => decide (d.Type_ = ChannelTypeGuildCategory)
  | _ => false

/-- A call that creates a channel that is not a category. -/
def discordgo.Call.isChannelCreate : Call → Bool
  | .GuildChannelCreateComplex _ d => decide (d.Type_ ≠ ChannelTypeGuildCategory)
  | _ => false

/-- The number of category-create calls in a trace. -/
def setup.categoryCount (tr : List Event) : Nat :=
  tr.countP fun e => e.call.isCategoryCreate

/-- The number of channel-create calls in a trace since its last category-create
call. -/
def setup.channelCount (tr : List Event) : Nat :=
  tr.foldl (fun n e =>
    if e.call.isCategoryCreate then 0 else if e.call.isChannelCreate then n + 1 else n) 0

/-- The configured channel whose turn it is after the calls `pre`: when `pre`
holds `i + 1` category-creates and `j` channel-creates since the last of them,
the `j`-th channel of the `i`-th configured category (counting from 0). -/
def setup.channelAt (cfg : Config) (pre : List Event) :
    Option (config.Category × config.Channel) :=
  match setup.categoryCount pre with
  | 0 => none
  | i + 1 =>
    match cfg.Channels.Categories[i]? with
    | none => none
    | some category =>
      (category.Channels[setup.channelCount pre]?).map fun ch => (category, ch)

/-- In trace `tr`, every successful channel-create is the creation of the
configured channel whose turn it is, followed at once by the overwrite for the
guild ID when that channel's permissions have the key `everyone`; and every
set-permission-overwrite call is such an overwrite. -/
def setup.ChannelsPinned (cfg : Config) (tr : List Event) : Prop :=
  (∀ pre post gid d channelID,
    tr = pre ++ ⟨.GuildChannelCreateComplex gid d, .ok channelID⟩ :: post →
    d.Type_ ≠ ChannelTypeGuildCategory →
    ∃ category ch, setup.channelAt cfg pre = some (category, ch) ∧
      gid = cfg.GuildID ∧ d = setup.channelData ch d.ParentID ∧
      ∀ ep, setup.everyoneOf ch = some ep →
        ∃ r, post.head? = some
          ⟨.ChannelPermissionSet channelID cfg.GuildID PermissionOverwriteTypeRole
            (setup.overwriteMasks ep).1 (setup.overwriteMasks ep).2, r⟩) ∧
  (∀ pre post cid tid ty allow deny r,
    tr = pre ++ ⟨.ChannelPermissionSet cid tid ty allow deny, r⟩ :: post →
    ∃ pre' d category ch ep,
      pre = pre' ++ [⟨.GuildChannelCreateComplex cfg.GuildID d, .ok cid⟩] ∧
      setup.channelAt cfg pre' = some (category, ch) ∧
      d = setup.channelData ch d.ParentID ∧ setup.everyoneOf ch = some ep ∧
      tid = cfg.GuildID ∧ ty = PermissionOverwriteTypeRole ∧
      allow = (setup.overwriteMasks ep).1 ∧ deny = (setup.overwriteMasks ep).2)

/-! ## The calls a run of `setup` can issue

`Issues w g cfg s c`: in session `s` of a run against guild `g`, the program may
issue call `c`. Each constructor is one call site of `internal/setup`, with what
is known there. `Reach w g cfg s0` collects the sessions the program passes
through from session `s0` on; a call is only ever issued when every earlier
call succeeded. -/

/-- The calls of `setupRoles`. -/
def discordgo.Call.isRoleCall : Call → Bool
  | .GuildRoles _ => true
  | .GuildRoleCreate _ _ => true
  | _ => false

inductive Issues (w : World) (g : Guild) (cfg : Config) : Session → Call → Prop
  | fetchRoles : Issues w g cfg ⟨g, []⟩ (.GuildRoles cfg.GuildID)
  | roleCreate (s : Session) (d : config.Role) :
      d ∈ cfg.Roles.Roles → d.Name ∉ g.roles.map (·.Name) →
      (∀ e ∈ s.trace, e.call.isRoleCall = true) →
      Issues w g cfg s (.GuildRoleCreate cfg.GuildID (setup.roleParams w d))
  | categoryCreate (s : Session) (category : config.Category) :
      category ∈ cfg.Channels.Categories →
      Issues w g cfg s (.GuildChannelCreateComplex cfg.GuildID (setup.categoryData category))
  | channelCreate (s : Session) (category : config.Category) (ch : config.Channel)
      (categoryID : String) :
      category ∈ cfg.Channels.Categories → ch ∈ category.Channels →
      ⟨.GuildChannelCreateComplex cfg.GuildID (setup.categoryData category), .ok categoryID⟩
        ∈ s.trace →
      Issues w g cfg s (.GuildChannelCreateComplex cfg.GuildID (setup.channelData ch categoryID))
  | permissionSet (s : Session) (category : config.Category) (ch : config.Channel)
      (categoryID channelID : String) (ep : GoMap Bool) :
      category ∈ cfg.Channels.Categories → ch ∈ category.Channels →
      setup.everyoneOf ch = some ep →
      s.trace.getLast? = some
        ⟨.GuildChannelCreateComplex cfg.GuildID (setup.channelData ch categoryID), .ok channelID⟩ →
      Issues w g cfg s (.ChannelPermissionSet channelID cfg.GuildID PermissionOverwriteTypeRole
        (setup.overwriteMasks ep).1 (setup.overwriteMasks ep).2)
  | fetchChannels (s : Session) (gh : config.GitHubIntegration) :
      cfg.Integrations.GitHub = some gh → gh.Enabled = true →
      Issues w g cfg s (.GuildChannels cfg.GuildID)
  | webhookCreate (s : Session) (gh : config.GitHubIntegration) (ch : discordgo.Channel) :
      cfg.Integrations.GitHub = some gh → gh.Enabled = true →
      s.guild.channels.find? (fun c => decide (c.Name = gh.TargetChannel)) = some ch →
      ch.ID ≠ "" →
      Issues w g cfg s (.WebhookCreate ch.ID "GitHub" "")

inductive Reach (w : World) (g : Guild) (cfg : Config) (s0 : Session) : Session → Prop
  | init : Reach w g cfg s0 s0
  | step (s : Session) (c : Call) :
      Reach w g cfg s0 s → (∀ e ∈ s.trace, e.reply.isOk = true) → Issues w g cfg s c →
      Reach w g cfg s0 (s.request w c).1

/-- Every channel name the configuration mentions: its categories, their
channels, and the integration's target channel. -/
def config.Config.channelNames (cfg : Config) : List String :=
  cfg.Channels.Categories.map (·.Name)
    ++ (cfg.Channels.Categories.flatMap fun category => category.Channels.map (·.Name))
    ++ (match cfg.Integrations.GitHub with
        | some gh => [gh.TargetChannel]
        | none => [])

namespace samples

/-- One category `Info` with one text channel `general` carrying overwrites for
`everyone` and for the role `Admin`; roles `[Admin, Member]`; a GitHub webhook
aimed at the channel `general`. -/
def cfgFull : Config :=
  { Server := server
    Channels := ⟨[⟨"Info", 0, [⟨"general", "text", "Talk", 0,
      some [("everyone", [("send_messages", false), ("add_reactions", true)]),
            ("Admin", [("manage_messages", true)])], []⟩]⟩]⟩
    Roles := ⟨[⟨"Admin", "#ff0000", ["administrator"], true, false, ""⟩,
               ⟨"Member", "#00ff00", ["send_messages"], false, true, ""⟩]⟩
    Integrations := ⟨some ⟨true, "general", ["push"]⟩⟩
    BotToken := "token"
    GuildID := "g" }

/-- A guild with the role `Member` and three channels; two are named `dev`. -/
def guildDev : Guild :=
  ⟨[⟨"m", "Member", 0, 0, false, false⟩],
   [⟨"c1", "lobby", 0, "", 0, ""⟩, ⟨"c2", "dev", 0, "", 1, ""⟩, ⟨"c3", "dev", 0, "", 2, ""⟩],
   [], []⟩

end samples

namespace samples

/-- A GitHub webhook aimed at the channel `dev`; no roles, no channels. -/
def cfgHook : Config :=
  { Server := server
    Channels := ⟨[]⟩
    Roles := ⟨[]⟩
    Integrations := ⟨some ⟨true, "dev", ["push"]⟩⟩
    BotToken := "token"
    GuildID := "g" }

/-- Two roles named `Admin`, two categories named `Info`, and in the first
category two channels named `general`. -/
def filesDup : config.Files :=
  { DISCORD_BOT_TOKEN := "token"
    DISCORD_GUILD_ID := "g"
    server := .ok server
    channels := .ok ⟨[⟨"Info", 0, [⟨"general", "text", "", 0, none, []⟩,
                                   ⟨"general", "voice", "", 1, none, []⟩]⟩,
                      ⟨"Info", 1, []⟩]⟩
    roles := .ok ⟨[⟨"Admin", "#ff0000", ["administrator"], true, false, ""⟩,
                   ⟨"Admin", "#0000ff", [], false, false, ""⟩]⟩
    integrations := .ok ⟨none⟩ }

/-- The configuration decoded from `filesDup`. -/
def cfgDup : Config :=
  { Server := server
    Channels := ⟨[⟨"Info", 0, [⟨"general", "text", "", 0, none, []⟩,
                               ⟨"general", "voice", "", 1, none, []⟩]⟩,
                  ⟨"Info", 1, []⟩]⟩
    Roles := ⟨[⟨"Admin", "#ff0000", ["administrator"], true, false, ""⟩,
               ⟨"Admin", "#0000ff", [], false, false, ""⟩]⟩
    Integrations := ⟨none⟩
    BotToken := "token"
    GuildID := "g" }

end samples

/-! ## internal/backup -/

namespace backup

/-- What `exportChannels` cannot control besides the service: whether
`yaml.Marshal` and `os.WriteFile` fail. -/
structure Disk where
  marshalErr : GoError
  writeErr : GoError

/-- The loop "Build category map" of `exportChannels`, on the pair
(`channelsConfig.Categories`, `categoryMap`). Each iteration declares a fresh
variable `category`; `categoryMap[ch.ID] = &category` keeps a pointer to that
variable, and `append(channelsConfig.Categories, category)` stores a copy of its
value. The map is kept as the contents of the variables its pointers lead to. -/
def collectCategories :
    List discordgo.Channel → List config.Category × GoMap config.Category →
      List config.Category × GoMap config.Category
  | [], acc => acc
  | ch :: rest, (categories, categoryMap) =>
    if ch.Type_ = ChannelTypeGuildCategory then
      let category : config.Category := ⟨ch.Name, ch.Position, []⟩
      collectCategories rest (categories ++ [category], GoMap.insert categoryMap ch.ID category)
    else
      collectCategories rest (categories, categoryMap)

/-- The `channelType` string chosen for an exported channel. -/
def channelTypeName (ch : discordgo.Channel) : String :=
  if ch.Type_ = ChannelTypeGuildVoice then "voice"
  else if ch.Type_ = ChannelTypeGuildForum then "forum"
  else "text"

/-- The loop "Add channels to categories" of `exportChannels`:
`category.Channels = append(category.Channels, channel)` writes through the
pointer found in `categoryMap`, that is, to the variable the map entry leads to;
the copies held in `channelsConfig.Categories` are not touched. -/
def addChannels : List discordgo.Channel → GoMap config.Category → GoMap config.Category
  | [], categoryMap => categoryMap
  | ch :: rest, categoryMap =>
    if ch.ParentID ≠ "" then
      match List.lookup ch.ParentID categoryMap with
      | some category =>
        let channel : config.Channel :=
          ⟨ch.Name, channelTypeName ch, ch.Topic, ch.Position, none, []⟩
        addChannels rest (GoMap.insert categoryMap ch.ParentID
          { category with Channels := category.Channels ++ [channel] })
      | none => addChannels rest categoryMap
    else
      addChannels rest categoryMap

/-- Both loops of `exportChannels` on the fetched channels: the
`channelsConfig` that is handed to `yaml.Marshal`, and the final contents of the
variables `categoryMap` points to. -/
def buildChannelsConfig (channels : List discordgo.Channel) :
    config.ChannelsConfig × GoMap config.Category :=
  let built := collectCategories channels ([], [])
  (⟨built.1⟩, addChannels channels built.2)

/-- The function `exportChannels`: the session, the error, and the value it
handed to `yaml.Marshal` (`none` when it did not get that far). -/
def exportChannels (w : World) (disk : Disk) (s : Session) (guildID _backupDir : String) :
    Session × GoError × Option config.ChannelsConfig :=
  match s.request w (.GuildChannels guildID) with
  | (s1, .error err) => (s1, some ("fetching channels: " ++ err), none)
  | (s1, .ok _) =>
    let channels := s.guild.channels
    let channelsConfig := (buildChannelsConfig channels).1
    match disk.marshalErr with
    | some err => (s1, some ("marshaling channels: " ++ err), some channelsConfig)
    | none =>
      match disk.writeErr with
      | some err => (s1, some ("writing channels backup: " ++ err), some channelsConfig)
      | none => (s1, none, some channelsConfig)

end backup

namespace samples

/-- Two categories, each with a channel `general` of the same name, type, topic
and position; only the one under `Public` has an `everyone` entry. -/
def cfgTwin : Config :=
  { Server := server
    Channels := ⟨[⟨"Staff", 0, [⟨"general", "text", "", 0, none, []⟩]⟩,
                  ⟨"Public", 0, [⟨"general", "text", "", 0,
                    some [("everyone", [("send_messages", true)])], []⟩]⟩]⟩
    Roles := ⟨[]⟩
    Integrations := ⟨none⟩
    BotToken := "token"
    GuildID := "g" }

/-- A disk on which encoding and writing succeed. -/
def okDisk : backup.Disk := ⟨none, none⟩

/-- A guild with the category `Info` and, under it, the channels `general` and
`voice-chat`. -/
def guildInfo : Guild :=
  ⟨[], [⟨"c1", "Info", 4, "", 0, ""⟩, ⟨"c2", "general", 0, "Talk", 0, "c1"⟩,
        ⟨"c3", "voice-chat", 2, "", 1, "c1"⟩], [], []⟩

/-- Roles listing permission names in several orders, with repetitions and with
a name `permissionValue` does not know. -/
def cfgPerms : Config :=
  { Server := server
    Channels := ⟨[]⟩
    Roles := ⟨[⟨"Bot", "#000000", ["send_messages", "fly", "administrator", "send_messages"],
                false, false, ""⟩,
               ⟨"Ghost", "#ffffff", ["fly"], false, false, ""⟩]⟩
    Integrations := ⟨none⟩
    BotToken := "token"
    GuildID := "g" }

end samples

/-! ## Lemmas on Go maps and permission bits -/

theorem GoMap.mem_of_lookup {V : Type} (m : GoMap V) (k : String) (v : V)
    (h : List.lookup k m = some v) : (k, v) ∈ m := by
  induction m with
  | nil => simp [List.lookup] at h
  | cons kv m ih =>
    obtain ⟨k', v'⟩ := kv
    by_cases hk : k = k'
    · subst hk
      simp [List.lookup] at h
      simp [h]
    · have hb : (k == k') = false := by simpa using hk
      simp only [List.lookup, hb] at h
      exact List.mem_cons_of_mem _ (ih h)

theorem GoMap.lookup_of_mem {V : Type} (m : GoMap V) (k : String) (v : V)
    (hm : (k, v) ∈ m) (hn : (m.map Prod.fst).Nodup) : List.lookup k m = some v := by
  induction m with
  | nil => simp at hm
  | cons kv m ih =>
    obtain ⟨k', v'⟩ := kv
    simp only [List.map_cons, List.nodup_cons] at hn
    rcases List.mem_cons.1 hm with h | h
    · cases h
      simp [List.lookup]
    · have hk : k ≠ k' := by
        rintro rfl
        exact hn.1 (List.mem_map.2 ⟨(k, v), h, rfl⟩)
      have hb : (k == k') = false := by simpa using hk
      simp only [List.lookup, hb]
      exact ih h hn.2

namespace setup

theorem permissionValue_eq (name : String) :
    permissionValue name = (List.lookup name permsTable).getD 0 := by
  show (match List.lookup name permsTable with
        | some val => val
        | none => 0) = _
  cases List.lookup name permsTable <;> rfl

theorem permissionValue_mem (name : String) (h : permissionValue name ≠ 0) :
    (name, permissionValue name) ∈ permsTable := by
  rw [permissionValue_eq] at h ⊢
  cases hl : List.lookup name permsTable with
  | none => simp [hl] at h
  | some v => simpa using GoMap.mem_of_lookup _ _ _ hl

theorem permsTable_disjoint : ∀ x ∈ permsTable, ∀ y ∈ permsTable,
    x.2 &&& y.2 ≠ 0 → x.1 = y.1 := by decide

theorem permissionValue_share (a b : String) (i : Nat)
    (ha : (permissionValue a).testBit i = true) (hb : (permissionValue b).testBit i = true) :
    a = b := by
  have hand : (permissionValue a &&& permissionValue b).testBit i = true := by
    simp [Nat.testBit_and, ha, hb]
  have hne : permissionValue a &&& permissionValue b ≠ 0 := by
    intro h0
    simp [h0] at hand
  have ha0 : permissionValue a ≠ 0 := by
    intro h0
    simp [h0] at ha
  have hb0 : permissionValue b ≠ 0 := by
    intro h0
    simp [h0] at hb
  exact permsTable_disjoint _ (permissionValue_mem a ha0) _ (permissionValue_mem b hb0) hne

end setup

namespace setup

theorem foldl_or_testBit (l : List Nat) (init i : Nat) :
    (l.foldl (· ||| ·) init).testBit i = (init.testBit i || l.any fun v => v.testBit i) := by
  induction l generalizing init with
  | nil => simp
  | cons v l ih => simp [ih, Nat.testBit_or, Bool.or_assoc]

theorem overwriteMasks_fold (ep : GoMap Bool) (a d : Nat) :
    ep.foldl (fun acc pv =>
        let permValue := permissionValue pv.1
        if pv.2 then (acc.1 ||| permValue, acc.2) else (acc.1, acc.2 ||| permValue)) (a, d)
      = (((ep.filter fun kv => kv.2).map fun kv => permissionValue kv.1).foldl (· ||| ·) a,
         ((ep.filter fun kv => !kv.2).map fun kv => permissionValue kv.1).foldl (· ||| ·) d) := by
  induction ep generalizing a d with
  | nil => rfl
  | cons kv ep ih =>
    obtain ⟨k, v⟩ := kv
    cases v <;> simp [List.foldl_cons, ih]

theorem overwriteMasks_eq (ep : GoMap Bool) :
    overwriteMasks ep
      = (((ep.filter fun kv => kv.2).map fun kv => permissionValue kv.1).foldl (· ||| ·) 0,
         ((ep.filter fun kv => !kv.2).map fun kv => permissionValue kv.1).foldl (· ||| ·) 0) :=
  overwriteMasks_fold ep 0 0

theorem overwriteMasks_disjoint (ep : GoMap Bool) (hn : (ep.map Prod.fst).Nodup) :
    (overwriteMasks ep).1 &&& (overwriteMasks ep).2 = 0 := by
  apply Nat.eq_of_testBit_eq
  intro i
  rw [overwriteMasks_eq, Nat.testBit_and, foldl_or_testBit, foldl_or_testBit]
  simp only [Nat.zero_testBit, Bool.false_or]
  by_contra hc
  simp only [Bool.not_eq_false, Bool.and_eq_true, List.any_eq_true, List.mem_map,
    List.mem_filter] at hc
  obtain ⟨⟨_, ⟨⟨k1, v1⟩, ⟨hm1, hv1⟩, rfl⟩, hb1⟩, ⟨_, ⟨⟨k2, v2⟩, ⟨hm2, hv2⟩, rfl⟩, hb2⟩⟩ := hc
  have hk : k1 = k2 := permissionValue_share k1 k2 i hb1 hb2
  subst hk
  have h1 := GoMap.lookup_of_mem ep k1 v1 hm1 hn
  have h2 := GoMap.lookup_of_mem ep k1 v2 hm2 hn
  rw [h1] at h2
  simp at hv1 hv2
  simp_all

end setup

/-! ## Lemmas on requests -/

@[simp] theorem request_trace (w : World) (s : Session) (c : Call) :
    (s.request w c).1.trace = s.trace ++ [⟨c, w.resp s.trace.length⟩] := rfl

@[simp] theorem request_reply (w : World) (s : Session) (c : Call) :
    (s.request w c).2 = w.resp s.trace.length := rfl

theorem request_guild_ok (w : World) (s : Session) (c : Call) (id : String)
    (h : w.resp s.trace.length = .ok id) : (s.request w c).1.guild = s.guild.apply c id := by
  simp [Session.request, h]

theorem request_guild_error (w : World) (s : Session) (c : Call) (msg : String)
    (h : w.resp s.trace.length = .error msg) : (s.request w c).1.guild = s.guild := by
  simp [Session.request, h]

namespace setup

theorem applyChannelPermissions_none (w : World) (s : Session) (guildID channelID : String)
    (perms : GoMap (GoMap Bool)) (h : List.lookup "everyone" perms = none) :
    applyChannelPermissions w s guildID channelID perms = (s, none) := by
  simp [applyChannelPermissions, h]

theorem applyChannelPermissions_some (w : World) (s : Session) (guildID channelID : String)
    (perms : GoMap (GoMap Bool)) (ep : GoMap Bool) (h : List.lookup "everyone" perms = some ep) :
    applyChannelPermissions w s guildID channelID perms
      = ((s.request w (.ChannelPermissionSet channelID guildID PermissionOverwriteTypeRole
            (overwriteMasks ep).1 (overwriteMasks ep).2)).1,
         match w.resp s.trace.length with
         | .error err => some ("setting @everyone permissions: " ++ err)
         | .ok _ => none) := by
  simp only [applyChannelPermissions, h]
  cases hr : w.resp s.trace.length <;> simp [Session.request, hr]

/-- C8: the allow and deny masks that `applyChannelPermissions` passes to
`ChannelPermissionSet` have no bit in common; allow is the OR of
`permissionValue` over the names mapped to true, deny over those mapped to
false. A Go map holds each key once (`hkeys`). -/
theorem applyChannelPermissions_allow_deny_disjoint (w : World) (s : Session)
    (guildID channelID : String) (perms : GoMap (GoMap Bool))
    (hkeys : ∀ kv ∈ perms, (kv.2.map Prod.fst).Nodup)
    (e : Event)
    (he : e ∈ (applyChannelPermissions w s guildID channelID perms).1.trace.drop s.trace.length)
    (cid tid : String) (ty allow deny : Nat)
    (hc : e.call = .ChannelPermissionSet cid tid ty allow deny) :
    allow &&& deny = 0 ∧
    ∃ ep, List.lookup "everyone" perms = some ep ∧
      allow = ((ep.filter fun kv => kv.2).map fun kv => permissionValue kv.1).foldl (· ||| ·) 0 ∧
      deny = ((ep.filter fun kv => !kv.2).map fun kv => permissionValue kv.1).foldl (· ||| ·) 0 := by
  cases hl : List.lookup "everyone" perms with
  | none =>
    rw [applyChannelPermissions_none w s guildID channelID perms hl] at he
    simp at he
  | some ep =>
    rw [applyChannelPermissions_some w s guildID channelID perms ep hl] at he
    simp only [request_trace, List.drop_left, List.mem_singleton] at he
    subst he
    simp only [Call.ChannelPermissionSet.injEq] at hc
    obtain ⟨-, -, -, ha, hd⟩ := hc
    have hn := hkeys _ (GoMap.mem_of_lookup perms "everyone" ep hl)
    refine ⟨?_, ep, rfl, ?_, ?_⟩
    · rw [← ha, ← hd]
      exact overwriteMasks_disjoint ep hn
    · rw [← ha, overwriteMasks_eq]
    · rw [← hd, overwriteMasks_eq]

end setup

theorem request_eq_ok (w : World) (s : Session) (c : Call) (id : String)
    (h : w.resp s.trace.length = .ok id) :
    s.request w c = (⟨s.guild.apply c id, s.trace ++ [⟨c, .ok id⟩]⟩, .ok id) := by
  simp [Session.request, h]

theorem request_eq_error (w : World) (s : Session) (c : Call) (msg : String)
    (h : w.resp s.trace.length = .error msg) :
    s.request w c = (⟨s.guild, s.trace ++ [⟨c, .error msg⟩]⟩, .error msg) := by
  simp [Session.request, h]

theorem GoMap.lookup_insert {V : Type} (m : GoMap V) (k k' : String) (v : V) :
    List.lookup k (GoMap.insert m k' v) = if k = k' then some v else List.lookup k m := by
  induction m with
  | nil =>
    by_cases h : k = k'
    · simp [GoMap.insert, List.lookup, h]
    · have hb : (k == k') = false := by simpa using h
      simp [GoMap.insert, List.lookup, h, hb]
  | cons kv m ih =>
    obtain ⟨k0, v0⟩ := kv
    by_cases h0 : k0 = k'
    · subst h0
      by_cases h : k = k0
      · simp [GoMap.insert, List.lookup, h]
      · have hb : (k == k0) = false := by simpa using h
        simp [GoMap.insert, List.lookup, h, hb]
    · by_cases h1 : k = k0
      · subst h1
        simp [GoMap.insert, List.lookup, h0]
      · have hb : (k == k0) = false := by simpa using h1
        simp [GoMap.insert, List.lookup, h0, hb, ih]

namespace setup

/-- The `roleMap` of `setupRoles` holds exactly the names of the fetched roles. -/
theorem roleMap_lookup (roles : List discordgo.Role) (m : GoMap discordgo.Role) (name : String) :
    (List.lookup name (roles.foldl (fun m role => GoMap.insert m role.Name role) m)).isSome
      = ((List.lookup name m).isSome || decide (name ∈ roles.map (·.Name))) := by
  induction roles generalizing m with
  | nil => simp
  | cons r roles ih =>
    rw [List.foldl_cons, ih, GoMap.lookup_insert]
    by_cases h : name = r.Name
    · simp [h]
    · simp [h]

theorem setupRolesLoop_skip (w : World) (cfg : Config) (m : GoMap discordgo.Role)
    (d : config.Role) (rest : List config.Role) (s : Session)
    (h : (List.lookup d.Name m).isSome = true) :
    setupRolesLoop w cfg m (d :: rest) s = setupRolesLoop w cfg m rest s := by
  simp [setupRolesLoop, h]

theorem setupRolesLoop_ok (w : World) (cfg : Config) (m : GoMap discordgo.Role)
    (d : config.Role) (rest : List config.Role) (s : Session) (id : String)
    (h : (List.lookup d.Name m).isSome = false) (hr : w.resp s.trace.length = .ok id) :
    setupRolesLoop w cfg m (d :: rest) s
      = setupRolesLoop w cfg m rest
          (s.request w (.GuildRoleCreate cfg.GuildID (roleParams w d))).1 := by
  simp [setupRolesLoop, h, Session.request, hr]

theorem setupRolesLoop_error (w : World) (cfg : Config) (m : GoMap discordgo.Role)
    (d : config.Role) (rest : List config.Role) (s : Session) (msg : String)
    (h : (List.lookup d.Name m).isSome = false) (hr : w.resp s.trace.length = .error msg) :
    setupRolesLoop w cfg m (d :: rest) s
      = ((s.request w (.GuildRoleCreate cfg.GuildID (roleParams w d))).1,
          some ("creating role " ++ d.Name ++ ": " ++ msg)) := by
  simp [setupRolesLoop, h, Session.request, hr]

theorem setupRolesLoop_calls (w : World) (cfg : Config) (m : GoMap discordgo.Role)
    (hok : ∀ n, ∃ id, w.resp n = .ok id) (rs : List config.Role) (s : Session) :
    (setupRolesLoop w cfg m rs s).1.trace.map (·.call)
      = s.trace.map (·.call)
        ++ (rs.filter fun d => !(List.lookup d.Name m).isSome).map
            fun d => Call.GuildRoleCreate cfg.GuildID (roleParams w d) := by
  induction rs generalizing s with
  | nil => simp [setupRolesLoop]
  | cons d rest ih =>
    cases h : (List.lookup d.Name m).isSome with
    | true =>
      rw [setupRolesLoop_skip w cfg m d rest s h, ih, List.filter_cons]
      simp only [h, Bool.not_true, Bool.false_eq_true, if_false]
    | false =>
      obtain ⟨id, hid⟩ := hok s.trace.length
      rw [setupRolesLoop_ok w cfg m d rest s id h hid, ih, List.filter_cons]
      simp only [h, Bool.not_false, if_true, request_trace, List.map_append, List.map_cons,
        List.map_nil, List.append_assoc, List.singleton_append]

theorem setupRoles_calls (w : World) (s : Session) (cfg : Config)
    (hok : ∀ n, ∃ id, w.resp n = .ok id) :
    (setupRoles w s cfg).1.trace.map (·.call)
      = s.trace.map (·.call) ++ Call.GuildRoles cfg.GuildID ::
          (cfg.Roles.Roles.filter fun d => decide (d.Name ∉ s.guild.roles.map (·.Name))).map
            fun d => Call.GuildRoleCreate cfg.GuildID (roleParams w d) := by
  obtain ⟨id, hid⟩ := hok s.trace.length
  simp only [setupRoles, request_eq_ok w s _ id hid]
  rw [setupRolesLoop_calls w cfg _ hok]
  simp only [List.map_append, List.map_cons, List.map_nil, List.append_assoc,
    List.singleton_append]
  congr 3
  apply List.filter_congr
  intro d _
  rw [roleMap_lookup]
  by_cases h : d.Name ∈ s.guild.roles.map (·.Name) <;> simp [h, List.lookup]

/-- C2: when every remote call succeeds, `setupRoles` fetches the roles and then
issues one role-create call for each desired role whose name is the name of no
remote role, in configuration order, and no other call. -/
theorem setupRoles_creates_missing (w : World) (s : Session) (cfg : Config)
    (hok : ∀ n, ∃ id, w.resp n = .ok id) :
    (setupRoles w s cfg).1.trace.map (·.call)
      = s.trace.map (·.call) ++ Call.GuildRoles cfg.GuildID ::
          (cfg.Roles.Roles.filter fun d => decide (d.Name ∉ s.guild.roles.map (·.Name))).map
            fun d => Call.GuildRoleCreate cfg.GuildID (roleParams w d) :=
  setupRoles_calls w s cfg hok

end setup

namespace setup

theorem applyChannelPermissions_allow_deny_disjoint_witness :
    (∀ kv ∈ samples.everyonePerms, (kv.2.map Prod.fst).Nodup) ∧
    ((0x40 : Nat) &&& 0x800 = 0 ∧
      ∃ ep, List.lookup "everyone" samples.everyonePerms = some ep ∧
        0x40 = ((ep.filter fun kv => kv.2).map fun kv => permissionValue kv.1).foldl (· ||| ·) 0 ∧
        0x800 = ((ep.filter fun kv => !kv.2).map fun kv => permissionValue kv.1).foldl (· ||| ·) 0) :=
  ⟨by decide,
   applyChannelPermissions_allow_deny_disjoint samples.okWorld ⟨samples.emptyGuild, []⟩ "g" "c"
     samples.everyonePerms (by decide) ⟨.ChannelPermissionSet "c" "g" 0 0x40 0x800, .ok "i"⟩
     (by decide) "c" "g" 0 0x40 0x800 rfl⟩

theorem setupRoles_creates_missing_witness :
    (∀ n, ∃ id, samples.okWorld.resp n = .ok id) ∧
    (setupRoles samples.okWorld ⟨samples.guildMember, []⟩ samples.cfgRoles).1.trace.map (·.call)
      = [Call.GuildRoles "g",
         Call.GuildRoleCreate "g" ⟨"Admin", 0, 8, true, false⟩] :=
  ⟨fun _ => ⟨_, rfl⟩,
   (setupRoles_creates_missing samples.okWorld ⟨samples.guildMember, []⟩ samples.cfgRoles
     (fun _ => ⟨_, rfl⟩)).trans (by decide)⟩

end setup

namespace setup

theorem findTargetChannel_eq (target : String) (chs : List discordgo.Channel) :
    findTargetChannel target chs
      = match chs.find? (fun c => decide (c.Name = target)) with
        | some ch => ch.ID
        | none => "" := by
  induction chs with
  | nil => rfl
  | cons c chs ih =>
    by_cases h : c.Name = target
    · simp [findTargetChannel, List.find?, h]
    · simp [findTargetChannel, List.find?, h, ih]

/-- C10: `setupIntegrations`, given the channel list that `GuildChannels`
returned. Enabled and some channel has the target name: one webhook-create call,
on the first such channel. Enabled and no channel has it: no webhook-create
call, and an error naming the target. Absent or disabled: no call, no error.
Channel IDs handed out by the service are never empty (`hid`). -/
theorem setupIntegrations_webhook (w : World) (s : Session) (cfg : Config)
    (hid : ∀ ch ∈ s.guild.channels, ch.ID ≠ "") :
    (∀ gh, cfg.Integrations.GitHub = some gh → gh.Enabled = true →
      (w.resp s.trace.length).isOk = true →
      (∀ ch, s.guild.channels.find? (fun c => decide (c.Name = gh.TargetChannel)) = some ch →
        (setupIntegrations w s cfg).1.trace.map (·.call)
          = s.trace.map (·.call)
            ++ [Call.GuildChannels cfg.GuildID, Call.WebhookCreate ch.ID "GitHub" ""]) ∧
      ((∀ ch ∈ s.guild.channels, ch.Name ≠ gh.TargetChannel) →
        (setupIntegrations w s cfg).1.trace.map (·.call)
          = s.trace.map (·.call) ++ [Call.GuildChannels cfg.GuildID] ∧
        (setupIntegrations w s cfg).2
          = some ("target channel not found: " ++ gh.TargetChannel))) ∧
    ((cfg.Integrations.GitHub = none ∨
        ∃ gh, cfg.Integrations.GitHub = some gh ∧ gh.Enabled = false) →
      setupIntegrations w s cfg = (s, none)) := by
  refine ⟨?_, ?_⟩
  · intro gh hgh hen hok
    cases hr : w.resp s.trace.length with
    | error msg => simp [hr, Reply.isOk] at hok
    | ok id =>
      refine ⟨?_, ?_⟩
      · intro ch hch
        have hmem : ch ∈ s.guild.channels := List.mem_of_find?_eq_some hch
        have hne : ch.ID ≠ "" := hid ch hmem
        simp only [setupIntegrations, hgh, hen, if_true, request_eq_ok w s _ id hr,
          findTargetChannel_eq, hch, hne, if_false]
        cases hr2 : w.resp (s.trace.length + 1) <;>
          simp [Session.request, hr2]
      · intro hnone
        have hfind : s.guild.channels.find? (fun c => decide (c.Name = gh.TargetChannel)) = none := by
          rw [List.find?_eq_none]
          intro ch hch
          simpa using hnone ch hch
        simp [setupIntegrations, hgh, hen, request_eq_ok w s _ id hr, findTargetChannel_eq, hfind]
  · rintro (h | ⟨gh, hgh, hen⟩)
    · simp [setupIntegrations, h]
    · simp [setupIntegrations, hgh, hen]

end setup

/-! ## Every session of a run is reachable -/

namespace setup

theorem allOk_request (w : World) (s : Session) (c : Call) (id : String)
    (hok : ∀ e ∈ s.trace, e.reply.isOk = true) (hr : w.resp s.trace.length = .ok id) :
    ∀ e ∈ (s.request w c).1.trace, e.reply.isOk = true := by
  intro e he
  simp only [request_trace, List.mem_append, List.mem_singleton] at he
  rcases he with he | he
  · exact hok e he
  · subst he
    simp [hr, Reply.isOk]

theorem setupRolesLoop_reach (w : World) (g : Guild) (cfg : Config) (s0 : Session)
    (rs : List config.Role) (s : Session) (hsub : ∀ d ∈ rs, d ∈ cfg.Roles.Roles)
    (hR : Reach w g cfg s0 s) (hok : ∀ e ∈ s.trace, e.reply.isOk = true)
    (hphase : ∀ e ∈ s.trace, e.call.isRoleCall = true) :
    Reach w g cfg s0 (setupRolesLoop w cfg
        (g.roles.foldl (fun m role => GoMap.insert m role.Name role) []) rs s).1 ∧
    ((setupRolesLoop w cfg
        (g.roles.foldl (fun m role => GoMap.insert m role.Name role) []) rs s).2 = none →
      ∀ e ∈ (setupRolesLoop w cfg
        (g.roles.foldl (fun m role => GoMap.insert m role.Name role) []) rs s).1.trace,
        e.reply.isOk = true) := by
  induction rs generalizing s with
  | nil => exact ⟨hR, fun _ => hok⟩
  | cons d rest ih =>
    have hrest : ∀ d' ∈ rest, d' ∈ cfg.Roles.Roles := fun d' hd' =>
      hsub d' (List.mem_cons_of_mem _ hd')
    cases h : (List.lookup d.Name
        (g.roles.foldl (fun m role => GoMap.insert m role.Name role) [])).isSome with
    | true =>
      rw [setupRolesLoop_skip w cfg _ d rest s h]
      exact ih s hrest hR hok hphase
    | false =>
      have hname : d.Name ∉ g.roles.map (·.Name) := by
        rw [roleMap_lookup] at h
        simpa [List.lookup] using h
      have hstep := Reach.step s _ hR hok
        (Issues.roleCreate s d (hsub d (List.mem_cons_self _ _)) hname hphase)
      cases hr : w.resp s.trace.length with
      | error msg =>
        rw [setupRolesLoop_error w cfg _ d rest s msg h hr]
        exact ⟨hstep, by simp⟩
      | ok id =>
        rw [setupRolesLoop_ok w cfg _ d rest s id h hr]
        refine ih _ hrest hstep (allOk_request w s _ id hok hr) ?_
        intro e he
        simp only [request_trace, List.mem_append, List.mem_singleton] at he
        rcases he with he | he
        · exact hphase e he
        · subst he
          rfl

theorem setupRoles_reach (w : World) (g : Guild) (cfg : Config) :
    Reach w g cfg ⟨g, []⟩ (setupRoles w ⟨g, []⟩ cfg).1 ∧
    ((setupRoles w ⟨g, []⟩ cfg).2 = none →
      ∀ e ∈ (setupRoles w ⟨g, []⟩ cfg).1.trace, e.reply.isOk = true) := by
  have hstep := Reach.step ⟨g, []⟩ _ Reach.init (by simp) (@Issues.fetchRoles w g cfg)
  cases hr : w.resp 0 with
  | error msg =>
    have hr' : w.resp (⟨g, []⟩ : Session).trace.length = .error msg := hr
    simp only [setupRoles, request_eq_error w ⟨g, []⟩ _ msg hr']
    rw [request_eq_error w ⟨g, []⟩ _ msg hr'] at hstep
    exact ⟨hstep, by simp⟩
  | ok id =>
    have hr' : w.resp (⟨g, []⟩ : Session).trace.length = .ok id := hr
    simp only [setupRoles, request_eq_ok w ⟨g, []⟩ _ id hr']
    rw [request_eq_ok w ⟨g, []⟩ _ id hr'] at hstep
    refine setupRolesLoop_reach w g cfg ⟨g, []⟩ _ _ (fun d hd => hd) hstep ?_ ?_
    · simp [Reply.isOk]
    · simp [Call.isRoleCall]

end setup

namespace setup

/-! Step equations of the channel loops. -/

theorem setupChannelsInner_error (w : World) (cfg : Config) (categoryID : String)
    (ch : config.Channel) (rest : List config.Channel) (s : Session) (msg : String)
    (hr : w.resp s.trace.length = .error msg) :
    setupChannelsInner w cfg categoryID (ch :: rest) s
      = ((s.request w (.GuildChannelCreateComplex cfg.GuildID (channelData ch categoryID))).1,
          some ("creating channel " ++ ch.Name ++ ": " ++ msg)) := by
  simp [setupChannelsInner, Session.request, hr]

theorem setupChannelsInner_plain (w : World) (cfg : Config) (categoryID : String)
    (ch : config.Channel) (rest : List config.Channel) (s : Session) (channelID : String)
    (hr : w.resp s.trace.length = .ok channelID) (hp : everyoneOf ch = none) :
    setupChannelsInner w cfg categoryID (ch :: rest) s
      = setupChannelsInner w cfg categoryID rest
          (s.request w (.GuildChannelCreateComplex cfg.GuildID (channelData ch categoryID))).1 := by
  cases hperm : ch.Permissions with
  | none => simp [setupChannelsInner, Session.request, hr, hperm, addForumTags]
  | some perms =>
    have hl : List.lookup "everyone" perms = none := by simpa [everyoneOf, hperm] using hp
    simp [setupChannelsInner, Session.request, hr, hperm, addForumTags, applyChannelPermissions, hl]

theorem setupChannelsInner_perm_error (w : World) (cfg : Config) (categoryID : String)
    (ch : config.Channel) (rest : List config.Channel) (s : Session) (channelID msg : String)
    (ep : GoMap Bool)
    (hr : w.resp s.trace.length = .ok channelID) (hp : everyoneOf ch = some ep)
    (hr2 : w.resp (s.request w
        (.GuildChannelCreateComplex cfg.GuildID (channelData ch categoryID))).1.trace.length
          = .error msg) :
    setupChannelsInner w cfg categoryID (ch :: rest) s
      = (((s.request w (.GuildChannelCreateComplex cfg.GuildID (channelData ch categoryID))).1.request
            w (.ChannelPermissionSet channelID cfg.GuildID PermissionOverwriteTypeRole
              (overwriteMasks ep).1 (overwriteMasks ep).2)).1,
          some ("applying permissions to " ++ ch.Name ++ ": "
            ++ ("setting @everyone permissions: " ++ msg))) := by
  cases hperm : ch.Permissions with
  | none => simp [everyoneOf, hperm] at hp
  | some perms =>
    have hl : List.lookup "everyone" perms = some ep := by simpa [everyoneOf, hperm] using hp
    simp only [request_trace] at hr2
    simp [setupChannelsInner, Session.request, hr, hperm, applyChannelPermissions, hl]
    simp at hr2
    simp [hr2]

theorem setupChannelsInner_perm_ok (w : World) (cfg : Config) (categoryID : String)
    (ch : config.Channel) (rest : List config.Channel) (s : Session) (channelID id2 : String)
    (ep : GoMap Bool)
    (hr : w.resp s.trace.length = .ok channelID) (hp : everyoneOf ch = some ep)
    (hr2 : w.resp (s.request w
        (.GuildChannelCreateComplex cfg.GuildID (channelData ch categoryID))).1.trace.length
          = .ok id2) :
    setupChannelsInner w cfg categoryID (ch :: rest) s
      = setupChannelsInner w cfg categoryID rest
          ((s.request w (.GuildChannelCreateComplex cfg.GuildID (channelData ch categoryID))).1.request
            w (.ChannelPermissionSet channelID cfg.GuildID PermissionOverwriteTypeRole
              (overwriteMasks ep).1 (overwriteMasks ep).2)).1 := by
  cases hperm : ch.Permissions with
  | none => simp [everyoneOf, hperm] at hp
  | some perms =>
    have hl : List.lookup "everyone" perms = some ep := by simpa [everyoneOf, hperm] using hp
    simp only [request_trace] at hr2
    simp [setupChannelsInner, Session.request, hr, hperm, applyChannelPermissions, hl,
      addForumTags]
    simp at hr2
    simp [hr2]

theorem setupChannelsLoop_error (w : World) (cfg : Config) (category : config.Category)
    (rest : List config.Category) (s : Session) (msg : String)
    (hr : w.resp s.trace.length = .error msg) :
    setupChannelsLoop w cfg (category :: rest) s
      = ((s.request w (.GuildChannelCreateComplex cfg.GuildID (categoryData category))).1,
          some ("creating category " ++ category.Name ++ ": " ++ msg)) := by
  simp [setupChannelsLoop, Session.request, hr]

theorem setupChannelsLoop_ok (w : World) (cfg : Config) (category : config.Category)
    (rest : List config.Category) (s : Session) (categoryID : String)
    (hr : w.resp s.trace.length = .ok categoryID) :
    setupChannelsLoop w cfg (category :: rest) s
      = match setupChannelsInner w cfg categoryID category.Channels
          (s.request w (.GuildChannelCreateComplex cfg.GuildID (categoryData category))).1 with
        | (s2, some err) => (s2, some err)
        | (s2, none) => setupChannelsLoop w cfg rest s2 := by
  simp [setupChannelsLoop, Session.request, hr]

end setup

namespace setup

theorem setupChannelsInner_reach (w : World) (g : Guild) (cfg : Config) (s0 : Session)
    (category : config.Category) (categoryID : String)
    (hcat : category ∈ cfg.Channels.Categories)
    (chs : List config.Channel) (s : Session) (hsub : ∀ ch ∈ chs, ch ∈ category.Channels)
    (hev : ⟨.GuildChannelCreateComplex cfg.GuildID (categoryData category), .ok categoryID⟩
      ∈ s.trace)
    (hR : Reach w g cfg s0 s) (hok : ∀ e ∈ s.trace, e.reply.isOk = true) :
    Reach w g cfg s0 (setupChannelsInner w cfg categoryID chs s).1 ∧
    ((setupChannelsInner w cfg categoryID chs s).2 = none →
      ∀ e ∈ (setupChannelsInner w cfg categoryID chs s).1.trace, e.reply.isOk = true) := by
  induction chs generalizing s with
  | nil => exact ⟨hR, fun _ => hok⟩
  | cons ch rest ih =>
    have hrest : ∀ c ∈ rest, c ∈ category.Channels := fun c hc =>
      hsub c (List.mem_cons_of_mem _ hc)
    have hch : ch ∈ category.Channels := hsub ch (List.mem_cons_self _ _)
    have hstep := Reach.step s _ hR hok
      (Issues.channelCreate s category ch categoryID hcat hch hev)
    cases hr : w.resp s.trace.length with
    | error msg =>
      rw [setupChannelsInner_error w cfg categoryID ch rest s msg hr]
      exact ⟨hstep, by simp⟩
    | ok channelID =>
      have hok1 := allOk_request w s
        (.GuildChannelCreateComplex cfg.GuildID (channelData ch categoryID)) channelID hok hr
      have hev1 : (⟨.GuildChannelCreateComplex cfg.GuildID (categoryData category),
          .ok categoryID⟩ : Event) ∈ (s.request w
            (.GuildChannelCreateComplex cfg.GuildID (channelData ch categoryID))).1.trace := by
        rw [request_trace]
        exact List.mem_append_left _ hev
      cases hp : everyoneOf ch with
      | none =>
        rw [setupChannelsInner_plain w cfg categoryID ch rest s channelID hr hp]
        exact ih _ hrest hev1 hstep hok1
      | some ep =>
        have hstep2 := Reach.step _ _ hstep hok1
          (Issues.permissionSet _ category ch categoryID channelID ep hcat hch hp
            (by rw [request_trace, hr]; simp))
        cases hr2 : w.resp (s.request w
            (.GuildChannelCreateComplex cfg.GuildID (channelData ch categoryID))).1.trace.length with
        | error msg =>
          rw [setupChannelsInner_perm_error w cfg categoryID ch rest s channelID msg ep hr hp hr2]
          exact ⟨hstep2, by simp⟩
        | ok id2 =>
          rw [setupChannelsInner_perm_ok w cfg categoryID ch rest s channelID id2 ep hr hp hr2]
          refine ih _ hrest ?_ hstep2 (allOk_request w _ _ id2 hok1 hr2)
          rw [request_trace]
          exact List.mem_append_left _ hev1

theorem setupChannelsLoop_reach (w : World) (g : Guild) (cfg : Config) (s0 : Session)
    (cats : List config.Category) (s : Session)
    (hsub : ∀ c ∈ cats, c ∈ cfg.Channels.Categories)
    (hR : Reach w g cfg s0 s) (hok : ∀ e ∈ s.trace, e.reply.isOk = true) :
    Reach w g cfg s0 (setupChannelsLoop w cfg cats s).1 ∧
    ((setupChannelsLoop w cfg cats s).2 = none →
      ∀ e ∈ (setupChannelsLoop w cfg cats s).1.trace, e.reply.isOk = true) := by
  induction cats generalizing s with
  | nil => exact ⟨hR, fun _ => hok⟩
  | cons category rest ih =>
    have hrest : ∀ c ∈ rest, c ∈ cfg.Channels.Categories := fun c hc =>
      hsub c (List.mem_cons_of_mem _ hc)
    have hcat : category ∈ cfg.Channels.Categories := hsub category (List.mem_cons_self _ _)
    have hstep := Reach.step s _ hR hok (Issues.categoryCreate s category hcat)
    cases hr : w.resp s.trace.length with
    | error msg =>
      rw [setupChannelsLoop_error w cfg category rest s msg hr]
      exact ⟨hstep, by simp⟩
    | ok categoryID =>
      have hok1 := allOk_request w s
        (.GuildChannelCreateComplex cfg.GuildID (categoryData category)) categoryID hok hr
      have hinner := setupChannelsInner_reach w g cfg s0 category categoryID hcat
        category.Channels _ (fun ch hch => hch)
        (by rw [request_trace, hr]; simp) hstep hok1
      rw [setupChannelsLoop_ok w cfg category rest s categoryID hr]
      rcases hin : setupChannelsInner w cfg categoryID category.Channels
        (s.request w (.GuildChannelCreateComplex cfg.GuildID (categoryData category))).1
        with ⟨s2, err⟩
      rw [hin] at hinner
      cases err with
      | some msg => exact ⟨hinner.1, by simp⟩
      | none => exact ih s2 hrest hinner.1 (hinner.2 rfl)

theorem setupIntegrations_reach (w : World) (g : Guild) (cfg : Config) (s0 : Session) (s : Session)
    (hR : Reach w g cfg s0 s) (hok : ∀ e ∈ s.trace, e.reply.isOk = true) :
    Reach w g cfg s0 (setupIntegrations w s cfg).1 ∧
    ((setupIntegrations w s cfg).2 = none →
      ∀ e ∈ (setupIntegrations w s cfg).1.trace, e.reply.isOk = true) := by
  cases hgh : cfg.Integrations.GitHub with
  | none =>
    simp only [setupIntegrations, hgh]
    exact ⟨hR, fun _ => hok⟩
  | some gh =>
    cases hen : gh.Enabled with
    | false =>
      simp only [setupIntegrations, hgh, hen]
      exact ⟨hR, fun _ => hok⟩
    | true =>
      have hstep := Reach.step s _ hR hok (Issues.fetchChannels s gh hgh hen)
      cases hr : w.resp s.trace.length with
      | error msg =>
        simp only [setupIntegrations, hgh, hen, if_true, request_eq_error w s _ msg hr]
        rw [request_eq_error w s _ msg hr] at hstep
        exact ⟨hstep, by simp⟩
      | ok id =>
        have hok1 := allOk_request w s (.GuildChannels cfg.GuildID) id hok hr
        rw [request_eq_ok w s _ id hr] at hstep hok1
        simp only [setupIntegrations, hgh, hen, if_true, request_eq_ok w s _ id hr,
          findTargetChannel_eq]
        cases hf : s.guild.channels.find? (fun c => decide (c.Name = gh.TargetChannel)) with
        | none => exact ⟨hstep, by simp⟩
        | some ch =>
          by_cases hne : ch.ID = ""
          · simp only [hne, if_true]
            exact ⟨hstep, by simp⟩
          · have hstep2 := Reach.step _ _ hstep hok1
              (Issues.webhookCreate _ gh ch hgh hen hf hne)
            simp only [hne, if_false]
            cases hr2 : w.resp (s.trace ++ [(⟨Call.GuildChannels cfg.GuildID, .ok id⟩ : Event)]).length with
            | error msg =>
              rw [request_eq_error w _ _ msg hr2] at hstep2 ⊢
              exact ⟨hstep2, by simp⟩
            | ok id2 =>
              have hok2 := allOk_request w _ (.WebhookCreate ch.ID "GitHub" "") id2 hok1 hr2
              rw [request_eq_ok w _ _ id2 hr2] at hstep2 hok2 ⊢
              exact ⟨hstep2, fun _ => hok2⟩

/-- Every session `setup.Run` ends in was reached call by call through `Issues`,
and a run without error made no failing call. -/
theorem Run_reach (w : World) (g : Guild) (cfg : Config) :
    Reach w g cfg ⟨g, []⟩ (Run w g cfg).1 ∧
    ((Run w g cfg).2 = none → ∀ e ∈ (Run w g cfg).1.trace, e.reply.isOk = true) := by
  cases hn : w.newErr with
  | some err =>
    simp only [Run, hn]
    exact ⟨Reach.init, by simp⟩
  | none =>
    cases ho : w.openErr with
    | some err =>
      simp only [Run, hn, ho]
      exact ⟨Reach.init, by simp⟩
    | none =>
      have h1 := setupRoles_reach w g cfg
      rcases hs1 : setupRoles w ⟨g, []⟩ cfg with ⟨s1, e1⟩
      rw [hs1] at h1
      cases e1 with
      | some err =>
        simp only [Run, hn, ho, hs1]
        exact ⟨h1.1, by simp⟩
      | none =>
        have h2 := setupChannelsLoop_reach w g cfg ⟨g, []⟩ cfg.Channels.Categories s1
          (fun c hc => hc) h1.1 (h1.2 rfl)
        rcases hs2 : setupChannels w s1 cfg with ⟨s2, e2⟩
        rw [show setupChannelsLoop w cfg cfg.Channels.Categories s1 = (s2, e2) from hs2] at h2
        cases e2 with
        | some err =>
          simp only [Run, hn, ho, hs1, hs2]
          exact ⟨h2.1, by simp⟩
        | none =>
          have h3 := setupIntegrations_reach w g cfg ⟨g, []⟩ s2 h2.1 (h2.2 rfl)
          rcases hs3 : setupIntegrations w s2 cfg with ⟨s3, e3⟩
          rw [hs3] at h3
          cases e3 with
          | some err =>
            simp only [Run, hn, ho, hs1, hs2, hs3]
            exact ⟨h3.1, by simp⟩
          | none =>
            simp only [Run, hn, ho, hs1, hs2, hs3]
            exact ⟨h3.1, fun _ => h3.2 rfl⟩

end setup

/-! ## What holds of every reachable session -/

/-- A property of each event, given the events before it, holds along a run if
it holds of every call at the moment it is issued. -/
theorem Reach.split_forall {w : World} {g : Guild} {cfg : Config}
    (Q : List Event → Event → Prop)
    (hQ : ∀ s c, Reach w g cfg ⟨g, []⟩ s → (∀ e ∈ s.trace, e.reply.isOk = true) →
      Issues w g cfg s c →
      Q s.trace ⟨c, w.resp s.trace.length⟩)
    {s : Session} (hR : Reach w g cfg ⟨g, []⟩ s) :
    ∀ pre e post, s.trace = pre ++ e :: post → Q pre e := by
  induction hR with
  | init => intro pre e post h; simp at h
  | step s c hR hok hI ih =>
    intro pre e post h
    rw [request_trace] at h
    rcases List.eq_nil_or_concat post with hp | ⟨post', x, hp⟩
    · subst hp
      have h' : s.trace ++ [⟨c, w.resp s.trace.length⟩] = pre ++ [e] := h
      obtain ⟨h1, h2⟩ := List.append_inj' h' rfl
      simp only [List.cons.injEq, and_true] at h2
      subst h1 h2
      exact hQ s c hR hok hI
    · subst hp
      have h' : s.trace ++ [⟨c, w.resp s.trace.length⟩] = (pre ++ e :: post') ++ [x] := by
        rw [h]; simp
      obtain ⟨h1, -⟩ := List.append_inj' h' rfl
      exact ih pre e post' h1

theorem Reach.trace_forall {w : World} {g : Guild} {cfg : Config} (P : Event → Prop)
    (hP : ∀ s c, Reach w g cfg ⟨g, []⟩ s → (∀ e ∈ s.trace, e.reply.isOk = true) →
      Issues w g cfg s c →
      P ⟨c, w.resp s.trace.length⟩)
    {s : Session} (hR : Reach w g cfg ⟨g, []⟩ s) : ∀ e ∈ s.trace, P e := by
  intro e he
  obtain ⟨pre, post, h⟩ := List.append_of_mem he
  exact Reach.split_forall (fun _ e => P e) hP hR pre e post h

/-- Every reply in the trace is an answer of the service, and every channel of
the guild was there at the start or carries an ID the service handed out. -/
theorem Reach.origin {w : World} {g : Guild} {cfg : Config} {s : Session}
    (hR : Reach w g cfg ⟨g, []⟩ s) :
    (∀ e ∈ s.trace, ∃ n, e.reply = w.resp n) ∧
    (∀ c ∈ s.guild.channels, c ∈ g.channels ∨ ∃ n, w.resp n = .ok c.ID) ∧
    (∀ r ∈ g.roles, r ∈ s.guild.roles) := by
  induction hR with
  | init => exact ⟨by simp, fun c hc => Or.inl hc, fun r hr => hr⟩
  | step s c hR hok hI ih =>
    obtain ⟨ih1, ih2, ih3⟩ := ih
    refine ⟨?_, ?_, ?_⟩
    · intro e he
      simp only [request_trace, List.mem_append, List.mem_singleton] at he
      rcases he with he | he
      · exact ih1 e he
      · exact ⟨s.trace.length, by rw [he]⟩
    · intro ch hch
      cases hr : w.resp s.trace.length with
      | error msg =>
        rw [request_guild_error w s c msg hr] at hch
        exact ih2 ch hch
      | ok id =>
        rw [request_guild_ok w s c id hr] at hch
        cases hI <;> simp only [Guild.apply, List.mem_append, List.mem_singleton] at hch
        all_goals first
          | exact ih2 ch hch
          | (rcases hch with hch | hch
             · exact ih2 ch hch
             · exact Or.inr ⟨_, by rw [hch]; exact hr⟩)
    · intro r hr0
      cases hr : w.resp s.trace.length with
      | error msg =>
        rw [request_guild_error w s c msg hr]
        exact ih3 r hr0
      | ok id =>
        rw [request_guild_ok w s c id hr]
        cases hI <;> simp only [Guild.apply, List.mem_append, List.mem_singleton]
        all_goals first
          | exact ih3 r hr0
          | exact Or.inl (ih3 r hr0)


theorem samples.okWorld_fresh (n : Nat) (id : String) (h : samples.okWorld.resp n = .ok id) :
    ∀ ch ∈ samples.guildDev.channels, ch.ID ≠ id := by
  simp only [samples.okWorld, Reply.ok.injEq] at h
  subst h
  intro ch hch
  simp only [samples.guildDev, List.mem_cons, List.mem_singleton, List.not_mem_nil,
    or_false] at hch
  rcases hch with h | h | h <;> subst h <;> intro hc <;>
    · have := congrArg String.data hc
      simp [List.replicate_succ] at this

/-- C1: the mutating calls of `setup.Run` and of `sync.Run` are role creates,
category/channel creates, permission-overwrite sets and webhook creates only:
nothing is deleted, no existing role is edited or removed (overwrites are
addressed to the guild ID, the `everyone` role), and no remote channel whose
name the configuration does not mention is the target of a call. The service
hands out IDs that are not in use (`hfresh`) and channel IDs are distinct. -/
theorem Run_issues_only_creates (w : World) (g : Guild) (cfg : Config)
    (hfresh : ∀ n id, w.resp n = .ok id → ∀ ch ∈ g.channels, ch.ID ≠ id)
    (hnodup : (g.channels.map (·.ID)).Nodup) :
    (∀ e ∈ (setup.Run w g cfg).1.trace, e.call.isMutating = true →
      e.call.isCreateOrSet = true ∧ e.call.isDelete = false) ∧
    (∀ e ∈ (sync.Run w g cfg).1.trace, e.call.isMutating = true →
      e.call.isCreateOrSet = true ∧ e.call.isDelete = false) ∧
    (∀ e ∈ (setup.Run w g cfg).1.trace, e.call.targetRole = none ∧
      ∀ cid tid ty allow deny, e.call = .ChannelPermissionSet cid tid ty allow deny →
        tid = cfg.GuildID ∧ ty = PermissionOverwriteTypeRole) ∧
    (∀ e ∈ (setup.Run w g cfg).1.trace, ∀ ch ∈ g.channels, ch.Name ∉ cfg.channelNames →
      e.call.targetChannel ≠ some ch.ID) := by
  have hR := (setup.Run_reach w g cfg).1
  refine ⟨?_, ?_, ?_, ?_⟩
  · refine Reach.trace_forall
      (fun e => e.call.isMutating = true → e.call.isCreateOrSet = true ∧ e.call.isDelete = false)
      ?_ hR
    intro s c _ _ hI
    cases hI <;> simp [Call.isMutating, Call.isCreateOrSet, Call.isDelete]
  · intro e he
    have : (sync.Run w g cfg).1.trace = [] := by
      unfold sync.Run
      cases w.newErr <;> cases w.openErr <;> rfl
    rw [this] at he
    simp at he
  · refine Reach.trace_forall
      (fun e => e.call.targetRole = none ∧
        ∀ cid tid ty allow deny, e.call = .ChannelPermissionSet cid tid ty allow deny →
          tid = cfg.GuildID ∧ ty = PermissionOverwriteTypeRole) ?_ hR
    intro s c _ _ hI
    cases hI <;> simp [Call.targetRole]
    intro _ _ _ _ _ _ h2 h3 _ _
    exact ⟨h2.symm, h3.symm⟩
  · refine Reach.trace_forall
      (fun e => ∀ ch ∈ g.channels, ch.Name ∉ cfg.channelNames →
        e.call.targetChannel ≠ some ch.ID) ?_ hR
    intro s c hRs _ hI ch hch hname
    obtain ⟨horig, hchan, -⟩ := Reach.origin hRs
    cases hI with
    | permissionSet _ category ch' categoryID channelID ep hcat hch' hp hlast =>
      simp only [Call.targetChannel, ne_eq, Option.some.injEq]
      intro hc
      obtain ⟨n, hn⟩ := horig _ (List.mem_of_getLast?_eq_some hlast)
      exact hfresh n channelID hn.symm ch hch hc.symm
    | webhookCreate _ gh ch' hgh hen hfind hne =>
      simp only [Call.targetChannel, ne_eq, Option.some.injEq]
      intro hc
      have hmem := List.mem_of_find?_eq_some hfind
      have hnm : ch'.Name = gh.TargetChannel := by simpa using List.find?_some hfind
      rcases hchan ch' hmem with h0 | ⟨n, hn⟩
      · have heq : ch' = ch := List.inj_on_of_nodup_map hnodup h0 hch hc
        subst heq
        apply hname
        simp [config.Config.channelNames, hgh, hnm]
      · exact hfresh n ch'.ID hn ch hch hc.symm
    | _ => simp [Call.targetChannel]


theorem Run_issues_only_creates_witness :
    (∀ n id, samples.okWorld.resp n = .ok id → ∀ ch ∈ samples.guildDev.channels, ch.ID ≠ id) ∧
    (samples.guildDev.channels.map (·.ID)).Nodup ∧
    (∀ e ∈ (setup.Run samples.okWorld samples.guildDev samples.cfgFull).1.trace,
      e.call.targetChannel ≠ some "c1") :=
  ⟨samples.okWorld_fresh, by decide, fun e he =>
    (Run_issues_only_creates samples.okWorld samples.guildDev samples.cfgFull samples.okWorld_fresh
      (by decide)).2.2.2 e he ⟨"c1", "lobby", 0, "", 0, ""⟩ (by decide) (by decide)⟩

namespace setup

theorem channelType_ne_category (ch : config.Channel) :
    channelType ch ≠ ChannelTypeGuildCategory := by
  unfold channelType
  split
  · decide
  · split <;> decide

end setup

/-- No call of a run removes a role: the roles of the start session stay. -/
theorem Reach.roles_mono {w : World} {g : Guild} {cfg : Config} {s0 s : Session}
    (hR : Reach w g cfg s0 s) : ∀ r ∈ s0.guild.roles, r ∈ s.guild.roles := by
  induction hR with
  | init => exact fun r hr => hr
  | step s c hR hok hI ih =>
    intro r hr0
    cases hr : w.resp s.trace.length with
    | error msg =>
      rw [request_guild_error w s c msg hr]
      exact ih r hr0
    | ok id =>
      rw [request_guild_ok w s c id hr]
      cases hI <;> simp only [Guild.apply, List.mem_append, List.mem_singleton]
      all_goals first
        | exact ih r hr0
        | exact Or.inl (ih r hr0)

namespace setup

/-- A run of `setup.Run` without error went through its three phases. -/
theorem Run_ok_phases (w : World) (g : Guild) (cfg : Config) (h : (Run w g cfg).2 = none) :
    ∃ s1 s2, setupRoles w ⟨g, []⟩ cfg = (s1, none) ∧ setupChannels w s1 cfg = (s2, none) ∧
      setupIntegrations w s2 cfg = ((Run w g cfg).1, none) := by
  cases hn : w.newErr with
  | some err => simp [Run, hn] at h
  | none =>
    cases ho : w.openErr with
    | some err => simp [Run, hn, ho] at h
    | none =>
      rcases hs1 : setupRoles w ⟨g, []⟩ cfg with ⟨s1, e1⟩
      cases e1 with
      | some err => simp [Run, hn, ho, hs1] at h
      | none =>
        rcases hs2 : setupChannels w s1 cfg with ⟨s2, e2⟩
        cases e2 with
        | some err => simp [Run, hn, ho, hs1, hs2] at h
        | none =>
          rcases hs3 : setupIntegrations w s2 cfg with ⟨s3, e3⟩
          cases e3 with
          | some err => simp [Run, hn, ho, hs1, hs2, hs3] at h
          | none =>
            refine ⟨s1, s2, rfl, hs2, ?_⟩
            simp [Run, hn, ho, hs1, hs2, hs3]

theorem setupRolesLoop_covered (w : World) (g : Guild) (cfg : Config)
    (rs : List config.Role) (s : Session) (hsub : ∀ d ∈ rs, d ∈ cfg.Roles.Roles)
    (hok : ∀ e ∈ s.trace, e.reply.isOk = true)
    (hphase : ∀ e ∈ s.trace, e.call.isRoleCall = true)
    (hg : ∀ r ∈ g.roles, r ∈ s.guild.roles)
    (h : (setupRolesLoop w cfg
        (g.roles.foldl (fun m role => GoMap.insert m role.Name role) []) rs s).2 = none) :
    ∀ d ∈ rs, d.Name ∈ (setupRolesLoop w cfg
        (g.roles.foldl (fun m role => GoMap.insert m role.Name role) []) rs s).1.guild.roles.map
          (·.Name) := by
  induction rs generalizing s with
  | nil => simp
  | cons d rest ih =>
    have hrest : ∀ d' ∈ rest, d' ∈ cfg.Roles.Roles := fun d' hd' =>
      hsub d' (List.mem_cons_of_mem _ hd')
    cases hl : (List.lookup d.Name
        (g.roles.foldl (fun m role => GoMap.insert m role.Name role) [])).isSome with
    | true =>
      rw [setupRolesLoop_skip w cfg _ d rest s hl] at h ⊢
      have hmono := (setupRolesLoop_reach w g cfg s rest s hrest Reach.init hok hphase).1.roles_mono
      intro d' hd'
      rcases List.mem_cons.1 hd' with hd' | hd'
      · subst hd'
        rw [roleMap_lookup] at hl
        have hmem : d'.Name ∈ g.roles.map (·.Name) := by simpa [List.lookup] using hl
        obtain ⟨r, hr, hrn⟩ := List.mem_map.1 hmem
        exact List.mem_map.2 ⟨r, hmono r (hg r hr), hrn⟩
      · exact ih s hrest hok hphase hg h d' hd'
    | false =>
      cases hr : w.resp s.trace.length with
      | error msg =>
        rw [setupRolesLoop_error w cfg _ d rest s msg hl hr] at h
        simp at h
      | ok id =>
        rw [setupRolesLoop_ok w cfg _ d rest s id hl hr] at h ⊢
        have hok1 := allOk_request w s
          (.GuildRoleCreate cfg.GuildID (roleParams w d)) id hok hr
        have hphase1 : ∀ e ∈ (s.request w
            (.GuildRoleCreate cfg.GuildID (roleParams w d))).1.trace,
            e.call.isRoleCall = true := by
          intro e he
          simp only [request_trace, List.mem_append, List.mem_singleton] at he
          rcases he with he | he
          · exact hphase e he
          · subst he
            rfl
        have hmono := (setupRolesLoop_reach w g cfg _ rest _ hrest Reach.init hok1
          hphase1).1.roles_mono
        intro d' hd'
        rcases List.mem_cons.1 hd' with hd' | hd'
        · subst hd'
          refine List.mem_map.2 ⟨⟨id, d'.Name, (roleParams w d').Color,
            (roleParams w d').Permissions, d'.Hoist, d'.Mentionable⟩, hmono _ ?_, rfl⟩
          rw [request_guild_ok w s _ id hr]
          simp [Guild.apply, roleParams]
        · refine ih _ hrest hok1 hphase1 ?_ h d' hd'
          intro r hr0
          rw [request_guild_ok w s _ id hr]
          simp [Guild.apply, hg r hr0]

/-- After a run of `setup.Run` without error, every configured role name is the
name of a remote role. -/
theorem Run_roles_covered (w : World) (g : Guild) (cfg : Config)
    (h : (Run w g cfg).2 = none) :
    ∀ d ∈ cfg.Roles.Roles, d.Name ∈ (Run w g cfg).1.guild.roles.map (·.Name) := by
  obtain ⟨s1, s2, hs1, hs2, hs3⟩ := Run_ok_phases w g cfg h
  have hok1 : ∀ e ∈ s1.trace, e.reply.isOk = true := by
    have := (setupRoles_reach w g cfg).2
    rw [hs1] at this
    exact this rfl
  have hR2 := setupChannelsLoop_reach w g cfg s1 cfg.Channels.Categories s1
    (fun c hc => hc) Reach.init hok1
  rw [show setupChannelsLoop w cfg cfg.Channels.Categories s1 = (s2, none) from hs2] at hR2
  have hR3 := setupIntegrations_reach w g cfg s1 s2 hR2.1 (hR2.2 rfl)
  rw [hs3] at hR3
  have hmono := hR3.1.roles_mono
  have hcov : ∀ d ∈ cfg.Roles.Roles, d.Name ∈ s1.guild.roles.map (·.Name) := by
    cases hr : w.resp 0 with
    | error msg =>
      have hr' : w.resp (⟨g, []⟩ : Session).trace.length = .error msg := hr
      simp [setupRoles, request_eq_error w ⟨g, []⟩ _ msg hr'] at hs1
    | ok id =>
      have hr' : w.resp (⟨g, []⟩ : Session).trace.length = .ok id := hr
      simp only [setupRoles, request_eq_ok w ⟨g, []⟩ _ id hr'] at hs1
      have := setupRolesLoop_covered w g cfg cfg.Roles.Roles
        ⟨g, [⟨.GuildRoles cfg.GuildID, .ok id⟩]⟩ (fun d hd => hd)
        (by simp [Reply.isOk]) (by simp [Call.isRoleCall]) (fun r hr => hr)
      simp only [Guild.apply, List.nil_append] at hs1
      rw [hs1] at this
      exact this rfl
  intro d hd
  obtain ⟨r, hr, hrn⟩ := List.mem_map.1 (hcov d hd)
  exact List.mem_map.2 ⟨r, hmono r hr, hrn⟩

end setup

namespace setup

/-- C3, counterexample: `setup.Run` succeeds on an empty guild, and run again
on the guild it left it creates the category, the channel, the overwrite and the
webhook a second time. -/
theorem Run_recreates_channels :
    (Run samples.okWorld samples.emptyGuild samples.cfgFull).2 = none ∧
    ∃ e ∈ (Run samples.okWorldJ
        (Run samples.okWorld samples.emptyGuild samples.cfgFull).1.guild samples.cfgFull).1.trace,
      e.call = .GuildChannelCreateComplex "g" ⟨"Info", ChannelTypeGuildCategory, "", 0, ""⟩ := by
  decide

/-- C3, amended: after a run of `setup.Run` without error, a second run with the
same configuration on the guild the first one left issues no role-create call
and no update call. -/
theorem Run_roles_idempotent (w w' : World) (g : Guild) (cfg : Config)
    (h : (Run w g cfg).2 = none) :
    ∀ e ∈ (Run w' (Run w g cfg).1.guild cfg).1.trace,
      (∀ gid p, e.call ≠ .GuildRoleCreate gid p) ∧ e.call.isUpdate = false := by
  have hcov := Run_roles_covered w g cfg h
  refine Reach.trace_forall
    (fun e => (∀ gid p, e.call ≠ .GuildRoleCreate gid p) ∧ e.call.isUpdate = false) ?_
    (Run_reach w' (Run w g cfg).1.guild cfg).1
  intro s c _ _ hI
  cases hI with
  | roleCreate _ d hd hname _ => exact absurd (hcov d hd) hname
  | _ => simp [Call.isUpdate]

theorem Run_roles_idempotent_witness :
    (Run samples.okWorld samples.emptyGuild samples.cfgFull).2 = none ∧
    ∀ e ∈ (Run samples.okWorldJ
        (Run samples.okWorld samples.emptyGuild samples.cfgFull).1.guild samples.cfgFull).1.trace,
      (∀ gid p, e.call ≠ .GuildRoleCreate gid p) ∧ e.call.isUpdate = false :=
  ⟨by decide,
   Run_roles_idempotent samples.okWorld samples.okWorldJ samples.emptyGuild samples.cfgFull
     (by decide)⟩

/-- C4, counterexample: the desired role `Member` matches the remote role `m` by
name and differs from it in its permissions and its mentionable flag, and
neither `setup.Run` nor `sync.Run` issues an update: `setup.Run` only creates
`Admin`, `sync.Run` makes no call. -/
theorem Run_no_role_update :
    (∃ d ∈ samples.cfgRoles.Roles.Roles, ∃ r ∈ samples.guildMember.roles,
      d.Name = r.Name ∧ d.Mentionable ≠ r.Mentionable) ∧
    (∀ e ∈ (Run samples.okWorld samples.guildMember samples.cfgRoles).1.trace,
      e.call.isUpdate = false) ∧
    (Run samples.okWorld samples.guildMember samples.cfgRoles).1.guild.roles.head?
      = some ⟨"m", "Member", 0, 0, false, false⟩ ∧
    (sync.Run samples.okWorld samples.guildMember samples.cfgRoles).1.trace = [] := by
  decide

/-- C4, amended: for a desired role whose name matches a remote role,
`setup.Run` and `sync.Run` issue no update and no create for it, whatever
fields differ. -/
theorem Run_skips_existing_role (w : World) (g : Guild) (cfg : Config)
    (d : config.Role) (r : discordgo.Role) (_hd : d ∈ cfg.Roles.Roles) (hr : r ∈ g.roles)
    (hname : d.Name = r.Name) :
    ∀ e ∈ (Run w g cfg).1.trace ++ (sync.Run w g cfg).1.trace,
      e.call.isUpdate = false ∧ ∀ gid p, e.call = .GuildRoleCreate gid p → p.Name ≠ d.Name := by
  have hsync : (sync.Run w g cfg).1.trace = [] := by
    unfold sync.Run
    cases w.newErr <;> cases w.openErr <;> rfl
  rw [hsync, List.append_nil]
  refine Reach.trace_forall
    (fun e => e.call.isUpdate = false ∧
      ∀ gid p, e.call = .GuildRoleCreate gid p → p.Name ≠ d.Name) ?_ (Run_reach w g cfg).1
  intro s c _ _ hI
  cases hI with
  | roleCreate _ d' hd' hname' _ =>
    refine ⟨rfl, ?_⟩
    intro gid p hc
    simp only [Call.GuildRoleCreate.injEq] at hc
    rw [← hc.2]
    intro heq
    apply hname'
    have : d'.Name = r.Name := by
      rw [← hname, ← heq]
      rfl
    rw [this]
    exact List.mem_map.2 ⟨r, hr, rfl⟩
  | _ => simp [Call.isUpdate]

theorem Run_skips_existing_role_witness :
    (⟨"Member", "#00ff00", ["send_messages"], false, true, ""⟩ : config.Role)
      ∈ samples.cfgRoles.Roles.Roles ∧
    (⟨"m", "Member", 0, 0, false, false⟩ : discordgo.Role) ∈ samples.guildMember.roles ∧
    ∀ e ∈ (Run samples.okWorld samples.guildMember samples.cfgRoles).1.trace
        ++ (sync.Run samples.okWorld samples.guildMember samples.cfgRoles).1.trace,
      e.call.isUpdate = false ∧ ∀ gid p, e.call = .GuildRoleCreate gid p → p.Name ≠ "Member" :=
  ⟨by decide, by decide,
   Run_skips_existing_role samples.okWorld samples.guildMember samples.cfgRoles
     ⟨"Member", "#00ff00", ["send_messages"], false, true, ""⟩
     ⟨"m", "Member", 0, 0, false, false⟩ (by decide) (by decide) rfl⟩

/-- C5, counterexample: `Admin` and `Member` are both missing; when the create
call for `Admin` fails the run ends there and the create call for `Member`, which
the run without failure issues, is never made. -/
theorem Run_aborts_on_failed_role :
    Call.GuildRoleCreate "g" ⟨"Member", 0, 0x800, false, true⟩
      ∈ (Run samples.okWorld samples.emptyGuild samples.cfgRoles).1.trace.map (·.call) ∧
    (Run samples.failWorld samples.emptyGuild samples.cfgRoles).1.trace.map (·.call)
      = [Call.GuildRoles "g", Call.GuildRoleCreate "g" ⟨"Admin", 0, 8, true, false⟩] ∧
    (Run samples.failWorld samples.emptyGuild samples.cfgRoles).2
      = some "setting up roles: creating role Admin: rate limited" := by
  decide

/-- C5, amended: a remote call that fails is the last call of the run, and
`setup.Run` returns an error: a single remote failure aborts the run. -/
theorem Run_stops_at_failure (w : World) (g : Guild) (cfg : Config)
    (pre post : List Event) (e : Event)
    (htr : (Run w g cfg).1.trace = pre ++ e :: post) (hfail : e.reply.isOk = false) :
    post = [] ∧ (Run w g cfg).2 ≠ none := by
  obtain ⟨hR, hnone⟩ := Run_reach w g cfg
  refine ⟨?_, ?_⟩
  · cases post with
    | nil => rfl
    | cons y post' =>
      have htr' : (Run w g cfg).1.trace = (pre ++ [e]) ++ y :: post' := by
        rw [htr]; simp
      have hall := Reach.split_forall (fun pre _ => ∀ x ∈ pre, x.reply.isOk = true)
        (fun s c _ hok _ => hok) hR _ y post' htr' e (by simp)
      rw [hfail] at hall
      exact absurd hall (by decide)
  · intro h
    have := hnone h e (by rw [htr]; simp)
    rw [hfail] at this
    exact absurd this (by decide)

theorem Run_stops_at_failure_witness :
    (Run samples.failWorld samples.emptyGuild samples.cfgRoles).1.trace
      = [⟨.GuildRoles "g", .ok "i"⟩]
        ++ ⟨.GuildRoleCreate "g" ⟨"Admin", 0, 8, true, false⟩, .error "rate limited"⟩ :: [] ∧
    (([] : List Event) = [] ∧
      (Run samples.failWorld samples.emptyGuild samples.cfgRoles).2 ≠ none) :=
  ⟨by decide,
   Run_stops_at_failure samples.failWorld samples.emptyGuild samples.cfgRoles
     [⟨.GuildRoles "g", .ok "i"⟩] []
     ⟨.GuildRoleCreate "g" ⟨"Admin", 0, 8, true, false⟩, .error "rate limited"⟩
     (by decide) rfl⟩

end setup

namespace setup

/-- C9, counterexample: the channel `general` maps the role `Admin`, created in
the same run with ID `ii`, to a permission; the run succeeds and sets a single
overwrite on the channel, the one for the guild ID, and none addressed to `ii`. -/
theorem Run_ignores_role_keys :
    (Run samples.okWorld samples.emptyGuild samples.cfgFull).2 = none ∧
    (⟨"ii", "Admin", 0, 8, true, false⟩ : discordgo.Role)
      ∈ (Run samples.okWorld samples.emptyGuild samples.cfgFull).1.guild.roles ∧
    (∀ e ∈ (Run samples.okWorld samples.emptyGuild samples.cfgFull).1.trace,
      e.call.overwriteTarget ≠ some "ii") ∧
    (Run samples.okWorld samples.emptyGuild samples.cfgFull).1.guild.overwrites
      = [⟨"iiiii", "g", 0, 0x40, 0x800⟩] := by
  decide

theorem setupIntegrations_webhook_witness :
    (∀ ch ∈ (⟨samples.guildDev, []⟩ : Session).guild.channels, ch.ID ≠ "") ∧
    (setupIntegrations samples.okWorld ⟨samples.guildDev, []⟩ samples.cfgHook).1.trace.map
        (·.call)
      = [] ++ [Call.GuildChannels "g", Call.WebhookCreate "c2" "GitHub" ""] :=
  ⟨by decide,
   ((setupIntegrations_webhook samples.okWorld ⟨samples.guildDev, []⟩ samples.cfgHook
      (by decide)).1 ⟨true, "dev", ["push"]⟩ rfl rfl rfl).1 ⟨"c2", "dev", 0, "", 1, ""⟩ rfl⟩

end setup

/-- The trace only grows along a run. -/
theorem Reach.trace_extends {w : World} {g : Guild} {cfg : Config} {s0 s : Session}
    (hR : Reach w g cfg s0 s) : ∃ l, s.trace = s0.trace ++ l := by
  induction hR with
  | init => exact ⟨[], by simp⟩
  | step s c hR hok hI ih =>
    obtain ⟨l, hl⟩ := ih
    exact ⟨l ++ [⟨c, w.resp s.trace.length⟩], by rw [request_trace, hl, List.append_assoc]⟩

namespace setup

/-- The trace of `setup.Run` starts with the trace of `setupRoles`. -/
theorem Run_trace_extends (w : World) (g : Guild) (cfg : Config)
    (hn : w.newErr = none) (ho : w.openErr = none) :
    ∃ l, (Run w g cfg).1.trace = (setupRoles w ⟨g, []⟩ cfg).1.trace ++ l := by
  have h1 := setupRoles_reach w g cfg
  rcases hs1 : setupRoles w ⟨g, []⟩ cfg with ⟨s1, e1⟩
  rw [hs1] at h1
  cases e1 with
  | some err => exact ⟨[], by simp [Run, hn, ho, hs1]⟩
  | none =>
    have h2 := setupChannelsLoop_reach w g cfg s1 cfg.Channels.Categories s1
      (fun c hc => hc) Reach.init (h1.2 rfl)
    rcases hs2 : setupChannels w s1 cfg with ⟨s2, e2⟩
    rw [show setupChannelsLoop w cfg cfg.Channels.Categories s1 = (s2, e2) from hs2] at h2
    cases e2 with
    | some err =>
      obtain ⟨l, hl⟩ := h2.1.trace_extends
      exact ⟨l, by simpa [Run, hn, ho, hs1, hs2] using hl⟩
    | none =>
      have h3 := setupIntegrations_reach w g cfg s1 s2 h2.1 (h2.2 rfl)
      rcases hs3 : setupIntegrations w s2 cfg with ⟨s3, e3⟩
      rw [hs3] at h3
      obtain ⟨l, hl⟩ := h3.1.trace_extends
      cases e3 with
      | some err => exact ⟨l, by simpa [Run, hn, ho, hs1, hs2, hs3] using hl⟩
      | none => exact ⟨l, by simpa [Run, hn, ho, hs1, hs2, hs3] using hl⟩

end setup

/-- C7, counterexample: a configuration with two roles named `Admin`, two
categories named `Info` and two channels named `general` in one category loads
without error, and `setup.Run` applies it without error, creating every
duplicate. -/
theorem config.Load_accepts_duplicates :
    config.Load samples.filesDup = .ok samples.cfgDup ∧
    (setup.Run samples.okWorld samples.emptyGuild samples.cfgDup).2 = none ∧
    (setup.Run samples.okWorld samples.emptyGuild samples.cfgDup).1.trace.map (·.call)
      = [Call.GuildRoles "g",
         Call.GuildRoleCreate "g" ⟨"Admin", 0, 8, true, false⟩,
         Call.GuildRoleCreate "g" ⟨"Admin", 0, 0, false, false⟩,
         Call.GuildChannelCreateComplex "g" ⟨"Info", 4, "", 0, ""⟩,
         Call.GuildChannelCreateComplex "g" ⟨"general", 0, "", 0, "iiii"⟩,
         Call.GuildChannelCreateComplex "g" ⟨"general", 2, "", 1, "iiii"⟩,
         Call.GuildChannelCreateComplex "g" ⟨"Info", 4, "", 1, ""⟩] := by
  refine ⟨rfl, ?_, ?_⟩ <;> decide

/-- C7, amended: `config.Load` checks no names: it returns the decoded
configuration whenever both environment variables are set and the four files
load, duplicate names included; `setup.Run` then starts with the role fetch and
one role-create call per listed role whose name no remote role has, so two
listed roles sharing such a name are both created (when the calls succeed). -/
theorem config.Load_then_Run_unvalidated (fs : config.Files) (w : World) (g : Guild)
    (server : config.ServerConfig) (channels : config.ChannelsConfig)
    (roles : config.RolesConfig) (integrations : config.IntegrationsConfig)
    (htoken : fs.DISCORD_BOT_TOKEN ≠ "") (hguild : fs.DISCORD_GUILD_ID ≠ "")
    (hs : fs.server = .ok server) (hc : fs.channels = .ok channels)
    (hr : fs.roles = .ok roles) (hi : fs.integrations = .ok integrations)
    (hn : w.newErr = none) (ho : w.openErr = none) (hok : ∀ n, ∃ id, w.resp n = .ok id) :
    config.Load fs
      = .ok ⟨server, channels, roles, integrations, fs.DISCORD_BOT_TOKEN, fs.DISCORD_GUILD_ID⟩ ∧
    ∃ l, (setup.Run w g
        ⟨server, channels, roles, integrations, fs.DISCORD_BOT_TOKEN,
          fs.DISCORD_GUILD_ID⟩).1.trace.map (·.call)
      = Call.GuildRoles fs.DISCORD_GUILD_ID ::
          ((roles.Roles.filter fun d => decide (d.Name ∉ g.roles.map (·.Name))).map
            fun d => Call.GuildRoleCreate fs.DISCORD_GUILD_ID (setup.roleParams w d)) ++ l := by
  refine ⟨?_, ?_⟩
  · simp [config.Load, htoken, hguild, hs, hc, hr, hi]
  · obtain ⟨l, hl⟩ := setup.Run_trace_extends w g
      ⟨server, channels, roles, integrations, fs.DISCORD_BOT_TOKEN, fs.DISCORD_GUILD_ID⟩ hn ho
    refine ⟨l.map (·.call), ?_⟩
    rw [hl, List.map_append, setup.setupRoles_calls w _ _ hok]
    simp

theorem config.Load_then_Run_unvalidated_witness :
    samples.filesDup.DISCORD_BOT_TOKEN ≠ "" ∧ samples.filesDup.DISCORD_GUILD_ID ≠ "" ∧
    (∀ n, ∃ id, samples.okWorld.resp n = .ok id) ∧
    config.Load samples.filesDup = .ok samples.cfgDup ∧
    ∃ l, (setup.Run samples.okWorld samples.emptyGuild samples.cfgDup).1.trace.map (·.call)
      = Call.GuildRoles "g" ::
          [Call.GuildRoleCreate "g" ⟨"Admin", 0, 8, true, false⟩,
           Call.GuildRoleCreate "g" ⟨"Admin", 0, 0, false, false⟩] ++ l :=
  ⟨by decide, by decide, fun _ => ⟨_, rfl⟩,
   config.Load_then_Run_unvalidated samples.filesDup samples.okWorld samples.emptyGuild
     samples.server _ _ _ (by decide) (by decide) rfl rfl rfl rfl rfl rfl (fun _ => ⟨_, rfl⟩)⟩

/-! ## The permission bitmask of a created role -/

namespace setup

theorem permsTable_keys_nodup : (permsTable.map Prod.fst).Nodup := by decide

/-- On a name of its table `permissionValue` is the table value. -/
theorem permissionValue_of_mem (kv : String × Nat) (h : kv ∈ permsTable) :
    permissionValue kv.1 = kv.2 := by
  rw [permissionValue_eq, GoMap.lookup_of_mem permsTable kv.1 kv.2 h permsTable_keys_nodup]
  rfl

/-- Outside its table `permissionValue` is 0. -/
theorem permissionValue_unknown (name : String) (h : name ∉ permsTable.map Prod.fst) :
    permissionValue name = 0 := by
  by_contra hne
  exact h (List.mem_map.2 ⟨_, permissionValue_mem name hne, rfl⟩)

theorem roleParams_testBit (w : World) (d : config.Role) (i : Nat) :
    (roleParams w d).Permissions.testBit i
      = d.Permissions.any fun name => (permissionValue name).testBit i := by
  show (d.Permissions.foldl (fun acc perm => acc ||| permissionValue perm) 0).testBit i = _
  rw [← List.foldl_map permissionValue (· ||| ·) d.Permissions 0, foldl_or_testBit]
  simp only [Nat.zero_testBit, Bool.false_or]
  induction d.Permissions with
  | nil => rfl
  | cons name rest ih => simp only [List.map_cons, List.any_cons, ih]

/-- The bitmask of a created role is the OR of the table values whose name the
role lists. -/
theorem roleParams_permissions (w : World) (d : config.Role) :
    (roleParams w d).Permissions
      = ((permsTable.filter fun kv => decide (kv.1 ∈ d.Permissions)).map Prod.snd).foldl
          (· ||| ·) 0 := by
  apply Nat.eq_of_testBit_eq
  intro i
  rw [roleParams_testBit, foldl_or_testBit, Bool.eq_iff_iff]
  simp only [Nat.zero_testBit, Bool.false_or, List.any_eq_true, List.mem_map, List.mem_filter,
    decide_eq_true_eq]
  constructor
  · rintro ⟨name, hname, hbit⟩
    have hne : permissionValue name ≠ 0 := by
      intro h0
      simp [h0] at hbit
    exact ⟨_, ⟨(name, permissionValue name), ⟨permissionValue_mem name hne, hname⟩, rfl⟩, hbit⟩
  · rintro ⟨_, ⟨kv, ⟨hmem, hname⟩, rfl⟩, hbit⟩
    exact ⟨kv.1, hname, by rw [permissionValue_of_mem kv hmem]; exact hbit⟩

theorem setupRolesLoop_new_events (w : World) (cfg : Config) (m : GoMap discordgo.Role)
    (rs : List config.Role) (s : Session) :
    ∃ l, (setupRolesLoop w cfg m rs s).1.trace = s.trace ++ l ∧
      ∀ e ∈ l, ∃ d ∈ rs, e.call = .GuildRoleCreate cfg.GuildID (roleParams w d) := by
  induction rs generalizing s with
  | nil => exact ⟨[], by simp [setupRolesLoop], by simp⟩
  | cons d rest ih =>
    cases hl : (List.lookup d.Name m).isSome with
    | true =>
      rw [setupRolesLoop_skip w cfg m d rest s hl]
      obtain ⟨l, hl1, hl2⟩ := ih s
      exact ⟨l, hl1, fun e he => by
        obtain ⟨d', hd', hc⟩ := hl2 e he
        exact ⟨d', List.mem_cons_of_mem _ hd', hc⟩⟩
    | false =>
      cases hr : w.resp s.trace.length with
      | error msg =>
        rw [setupRolesLoop_error w cfg m d rest s msg hl hr]
        refine ⟨[⟨.GuildRoleCreate cfg.GuildID (roleParams w d), .error msg⟩], ?_, ?_⟩
        · rw [request_trace, hr]
        · intro e he
          simp only [List.mem_singleton] at he
          subst he
          exact ⟨d, List.mem_cons_self _ _, rfl⟩
      | ok id =>
        rw [setupRolesLoop_ok w cfg m d rest s id hl hr]
        obtain ⟨l, hl1, hl2⟩ := ih (s.request w (.GuildRoleCreate cfg.GuildID (roleParams w d))).1
        refine ⟨⟨.GuildRoleCreate cfg.GuildID (roleParams w d), .ok id⟩ :: l, ?_, ?_⟩
        · rw [hl1, request_trace, hr]
          simp
        · intro e he
          rcases List.mem_cons.1 he with he | he
          · subst he
            exact ⟨d, List.mem_cons_self _ _, rfl⟩
          · obtain ⟨d', hd', hc⟩ := hl2 e he
            exact ⟨d', List.mem_cons_of_mem _ hd', hc⟩

/-- C12: for every role-create call that `setupRoles` issues, the permission
bitmask is the OR of the table values of `permissionValue` over the eight names,
restricted to the names the role lists. A name outside the table adds no bit, so
a role listing the same names in another order or with repetitions gets the same
bitmask, and a role listing only unknown names gets bitmask 0. -/
theorem setupRoles_permission_bitmask (w : World) (s : Session) (cfg : Config) (e : Event)
    (he : e ∈ (setupRoles w s cfg).1.trace.drop s.trace.length)
    (gid : String) (p : RoleParams) (hc : e.call = .GuildRoleCreate gid p) :
    ∃ d ∈ cfg.Roles.Roles, p.Name = d.Name ∧
      p.Permissions
        = ((permsTable.filter fun kv => decide (kv.1 ∈ d.Permissions)).map Prod.snd).foldl
            (· ||| ·) 0 ∧
      (∀ name, name ∉ permsTable.map Prod.fst → permissionValue name = 0) ∧
      (∀ d' : config.Role, (∀ name, name ∈ d'.Permissions ↔ name ∈ d.Permissions) →
        (roleParams w d').Permissions = p.Permissions) ∧
      ((∀ name ∈ d.Permissions, name ∉ permsTable.map Prod.fst) → p.Permissions = 0) := by
  have hnew : ∃ d ∈ cfg.Roles.Roles, e.call = .GuildRoleCreate cfg.GuildID (roleParams w d) := by
    cases hr : w.resp s.trace.length with
    | error msg =>
      simp only [setupRoles, request_eq_error w s _ msg hr, List.drop_left,
        List.mem_singleton] at he
      subst he
      simp at hc
    | ok id =>
      simp only [setupRoles, request_eq_ok w s _ id hr] at he
      obtain ⟨l, hl1, hl2⟩ := setupRolesLoop_new_events w cfg
        (s.guild.roles.foldl (fun m role => GoMap.insert m role.Name role) [])
        cfg.Roles.Roles ⟨s.guild.apply (.GuildRoles cfg.GuildID) id,
          s.trace ++ [⟨.GuildRoles cfg.GuildID, .ok id⟩]⟩
      rw [hl1, List.append_assoc, List.drop_left] at he
      rcases List.mem_append.1 he with he | he
      · simp only [List.mem_singleton] at he
        subst he
        simp at hc
      · exact hl2 e he
  obtain ⟨d, hd, hcall⟩ := hnew
  rw [hc] at hcall
  simp only [Call.GuildRoleCreate.injEq] at hcall
  obtain ⟨-, hp⟩ := hcall
  subst hp
  refine ⟨d, hd, rfl, roleParams_permissions w d, permissionValue_unknown, ?_, ?_⟩
  · intro d' hsame
    rw [roleParams_permissions, roleParams_permissions]
    congr 2
    apply List.filter_congr
    intro kv _
    simp [hsame kv.1]
  · intro hunknown
    rw [roleParams_permissions]
    have : (permsTable.filter fun kv => decide (kv.1 ∈ d.Permissions)) = [] := by
      rw [List.filter_eq_nil_iff]
      intro kv hkv
      simp only [decide_eq_true_eq]
      intro hmem
      exact hunknown kv.1 hmem (List.mem_map.2 ⟨kv, hkv, rfl⟩)
    rw [this]
    rfl

end setup

namespace setup

theorem setupRoles_permission_bitmask_witness :
    (⟨.GuildRoleCreate "g" ⟨"Bot", 0, 0x808, false, false⟩, .ok "ii"⟩ : Event)
      ∈ (setupRoles samples.okWorld ⟨samples.emptyGuild, []⟩ samples.cfgPerms).1.trace.drop 0 ∧
    ∃ d ∈ samples.cfgPerms.Roles.Roles, "Bot" = d.Name ∧
      (0x808 : Nat)
        = ((permsTable.filter fun kv => decide (kv.1 ∈ d.Permissions)).map Prod.snd).foldl
            (· ||| ·) 0 ∧
      (∀ name, name ∉ permsTable.map Prod.fst → permissionValue name = 0) ∧
      (∀ d' : config.Role, (∀ name, name ∈ d'.Permissions ↔ name ∈ d.Permissions) →
        (roleParams samples.okWorld d').Permissions = 0x808) ∧
      ((∀ name ∈ d.Permissions, name ∉ permsTable.map Prod.fst) → (0x808 : Nat) = 0) :=
  ⟨by decide,
   setupRoles_permission_bitmask samples.okWorld ⟨samples.emptyGuild, []⟩ samples.cfgPerms
     ⟨.GuildRoleCreate "g" ⟨"Bot", 0, 0x808, false, false⟩, .ok "ii"⟩ (by decide)
     "g" ⟨"Bot", 0, 0x808, false, false⟩ rfl⟩

end setup

/-! ## The channels export of `backup` -/

namespace backup

theorem collectCategories_fst (channels : List discordgo.Channel)
    (acc : List config.Category × GoMap config.Category) :
    (collectCategories channels acc).1
      = acc.1 ++ (channels.filter fun ch => decide (ch.Type_ = ChannelTypeGuildCategory)).map
          fun ch => (⟨ch.Name, ch.Position, []⟩ : config.Category) := by
  induction channels generalizing acc with
  | nil => simp [collectCategories]
  | cons ch rest ih =>
    obtain ⟨categories, categoryMap⟩ := acc
    by_cases h : ch.Type_ = ChannelTypeGuildCategory
    · simp [collectCategories, h, ih]
    · simp [collectCategories, h, ih]

/-- What `exportChannels` hands to `yaml.Marshal`: one entry per remote category
channel, in list order, each with an empty channel list. -/
theorem buildChannelsConfig_categories (channels : List discordgo.Channel) :
    (buildChannelsConfig channels).1.Categories
      = (channels.filter fun ch => decide (ch.Type_ = ChannelTypeGuildCategory)).map
          fun ch => (⟨ch.Name, ch.Position, []⟩ : config.Category) := by
  simp [buildChannelsConfig, collectCategories_fst]

/-- C11: on a guild with the category `Info` and two channels under it,
`exportChannels` serialises the category with an empty channel list; the two
channel entries end up only in the variable `categoryMap` points to, which is
not part of what is written. -/
theorem exportChannels_drops_channels :
    (exportChannels samples.okWorld samples.okDisk ⟨samples.guildInfo, []⟩ "g" "backups/t").2.2
      = some ⟨[⟨"Info", 0, []⟩]⟩ ∧
    (exportChannels samples.okWorld samples.okDisk ⟨samples.guildInfo, []⟩ "g" "backups/t").2.1
      = none ∧
    (buildChannelsConfig samples.guildInfo.channels).2
      = [("c1", ⟨"Info", 0, [⟨"general", "text", "Talk", 0, none, []⟩,
                             ⟨"voice-chat", "voice", "", 1, none, []⟩]⟩)] := by
  decide

end backup

/-! ## The overwrite follows the channel it belongs to -/

theorem List.split_append_cases {α : Type} {tr l pre post : List α} {e : α}
    (h : tr ++ l = pre ++ e :: post) :
    (∃ a, pre = tr ++ a ∧ l = a ++ e :: post) ∨ (∃ c, tr = pre ++ e :: c ∧ post = c ++ l) := by
  rcases List.append_eq_append_iff.1 h with ⟨a, ha, hb⟩ | ⟨c, hc, hd⟩
  · exact Or.inl ⟨a, ha, hb⟩
  · cases c with
    | nil =>
      refine Or.inl ⟨[], ?_, ?_⟩
      · simpa using hc.symm
      · simpa using hd.symm
    | cons x c =>
      simp only [List.cons_append, List.cons.injEq] at hd
      obtain ⟨hx, hpost⟩ := hd
      subst hx
      exact Or.inr ⟨c, hc, hpost⟩

theorem List.singleton_split {α : Type} {x e : α} {pre post : List α}
    (h : [x] = pre ++ e :: post) : pre = [] ∧ e = x ∧ post = [] := by
  cases pre with
  | nil =>
    simp only [List.nil_append, List.cons.injEq] at h
    exact ⟨rfl, h.1.symm, h.2.symm⟩
  | cons y pre =>
    have hlen := congrArg List.length h
    simp at hlen

theorem List.pair_split {α : Type} {x y e : α} {pre post : List α}
    (h : [x, y] = pre ++ e :: post) :
    (pre = [] ∧ e = x ∧ post = [y]) ∨ (pre = [x] ∧ e = y ∧ post = []) := by
  cases pre with
  | nil =>
    simp only [List.nil_append, List.cons.injEq] at h
    exact Or.inl ⟨rfl, h.1.symm, h.2.symm⟩
  | cons z pre =>
    simp only [List.cons_append, List.cons.injEq] at h
    obtain ⟨hz, hrest⟩ := h
    obtain ⟨h1, h2, h3⟩ := List.singleton_split hrest
    subst hz h1 h2 h3
    exact Or.inr ⟨rfl, rfl, rfl⟩

namespace setup

theorem categoryCount_concat (tr : List Event) (e : Event) :
    categoryCount (tr ++ [e]) = categoryCount tr + if e.call.isCategoryCreate then 1 else 0 := by
  simp [categoryCount, List.countP_append, List.countP_cons]

theorem channelCount_concat (tr : List Event) (e : Event) :
    channelCount (tr ++ [e])
      = if e.call.isCategoryCreate then 0
        else if e.call.isChannelCreate then channelCount tr + 1 else channelCount tr := by
  simp [channelCount, List.foldl_append]

theorem isCategoryCreate_channelData (gid : String) (ch : config.Channel) (categoryID : String) :
    (Call.GuildChannelCreateComplex gid (channelData ch categoryID)).isCategoryCreate = false := by
  simp [Call.isCategoryCreate, channelData, channelType_ne_category]

theorem isChannelCreate_channelData (gid : String) (ch : config.Channel) (categoryID : String) :
    (Call.GuildChannelCreateComplex gid (channelData ch categoryID)).isChannelCreate = true := by
  simp [Call.isChannelCreate, channelData, channelType_ne_category]

theorem channelAt_eq (cfg : Config) (tr : List Event) (i : Nat) (category : config.Category)
    (before rest : List config.Channel) (ch : config.Channel)
    (hc : categoryCount tr = i + 1) (hcat : cfg.Channels.Categories[i]? = some category)
    (hch : category.Channels = before ++ ch :: rest) (hn : channelCount tr = before.length) :
    channelAt cfg tr = some (category, ch) := by
  have hget : (before ++ ch :: rest)[before.length]? = some ch := by
    rw [List.getElem?_append_right (Nat.le_refl _)]
    simp
  simp only [channelAt, hc, hcat, hn, hch, hget, Option.map_some']

theorem ChannelsPinned.nil (cfg : Config) : ChannelsPinned cfg [] := by
  refine ⟨?_, ?_⟩
  · intro pre post gid d channelID h
    simp at h
  · intro pre post cid tid ty allow deny r h
    simp at h

/-- Appending a block of events keeps `ChannelsPinned` when the block's own
channel-creates and overwrites meet it, read after the trace so far. -/
theorem ChannelsPinned.append {cfg : Config} {tr l : List Event}
    (h : ChannelsPinned cfg tr)
    (h1 : ∀ pre post gid d channelID,
      l = pre ++ ⟨.GuildChannelCreateComplex gid d, .ok channelID⟩ :: post →
      d.Type_ ≠ ChannelTypeGuildCategory →
      ∃ category ch, channelAt cfg (tr ++ pre) = some (category, ch) ∧
        gid = cfg.GuildID ∧ d = channelData ch d.ParentID ∧
        ∀ ep, everyoneOf ch = some ep →
          ∃ r, post.head? = some
            ⟨.ChannelPermissionSet channelID cfg.GuildID PermissionOverwriteTypeRole
              (overwriteMasks ep).1 (overwriteMasks ep).2, r⟩)
    (h2 : ∀ pre post cid tid ty allow deny r,
      l = pre ++ ⟨.ChannelPermissionSet cid tid ty allow deny, r⟩ :: post →
      ∃ pre' d category ch ep,
        tr ++ pre = pre' ++ [⟨.GuildChannelCreateComplex cfg.GuildID d, .ok cid⟩] ∧
        channelAt cfg pre' = some (category, ch) ∧
        d = channelData ch d.ParentID ∧ everyoneOf ch = some ep ∧
        tid = cfg.GuildID ∧ ty = PermissionOverwriteTypeRole ∧
        allow = (overwriteMasks ep).1 ∧ deny = (overwriteMasks ep).2) :
    ChannelsPinned cfg (tr ++ l) := by
  refine ⟨?_, ?_⟩
  · intro pre post gid d channelID hsplit hty
    rcases List.split_append_cases hsplit with ⟨a, hpre, hl⟩ | ⟨c, htr, hpost⟩
    · subst hpre
      exact h1 a post gid d channelID hl hty
    · obtain ⟨category, ch, hat, hg, hd, hep⟩ := h.1 pre c gid d channelID htr hty
      refine ⟨category, ch, hat, hg, hd, ?_⟩
      intro ep hp
      obtain ⟨r, hr⟩ := hep ep hp
      refine ⟨r, ?_⟩
      rw [hpost]
      cases c with
      | nil => simp at hr
      | cons y c => simpa using hr
  · intro pre post cid tid ty allow deny r hsplit
    rcases List.split_append_cases hsplit with ⟨a, hpre, hl⟩ | ⟨c, htr, -⟩
    · subst hpre
      exact h2 a post cid tid ty allow deny r hl
    · exact h.2 pre c cid tid ty allow deny r htr

/-- An event that is neither a successful channel-create nor an overwrite. -/
theorem ChannelsPinned.concat_other {cfg : Config} {tr : List Event} (h : ChannelsPinned cfg tr)
    (e : Event) (he : e.call.isChannelCreate = false ∨ e.reply.isOk = false)
    (ho : e.call.overwriteTarget = none) : ChannelsPinned cfg (tr ++ [e]) := by
  refine h.append ?_ ?_
  · intro pre post gid d channelID hsplit hty
    obtain ⟨-, hx, -⟩ := List.singleton_split hsplit
    subst hx
    rcases he with he | he
    · simp [Call.isChannelCreate, hty] at he
    · simp [Reply.isOk] at he
  · intro pre post cid tid ty allow deny r hsplit
    obtain ⟨-, hx, -⟩ := List.singleton_split hsplit
    subst hx
    simp [Call.overwriteTarget] at ho

/-- The creation of the channel whose turn it is, when it has no `everyone`
entry. -/
theorem ChannelsPinned.concat_create {cfg : Config} {tr : List Event}
    (h : ChannelsPinned cfg tr) (category : config.Category) (ch : config.Channel)
    (categoryID : String) (r : Reply)
    (hat : channelAt cfg tr = some (category, ch)) (hp : everyoneOf ch = none) :
    ChannelsPinned cfg
      (tr ++ [⟨.GuildChannelCreateComplex cfg.GuildID (channelData ch categoryID), r⟩]) := by
  refine h.append ?_ ?_
  · intro pre post gid d channelID hsplit hty
    obtain ⟨hpre, hx, -⟩ := List.singleton_split hsplit
    subst hpre
    simp only [Event.mk.injEq, Call.GuildChannelCreateComplex.injEq] at hx
    obtain ⟨⟨hg, hd⟩, -⟩ := hx
    subst hg hd
    refine ⟨category, ch, by simpa using hat, rfl, rfl, ?_⟩
    intro ep hep
    rw [hp] at hep
    cases hep
  · intro pre post cid tid ty allow deny r' hsplit
    obtain ⟨-, hx, -⟩ := List.singleton_split hsplit
    simp at hx

/-- The creation of the channel whose turn it is, followed by its `everyone`
overwrite. -/
theorem ChannelsPinned.concat_pair {cfg : Config} {tr : List Event}
    (h : ChannelsPinned cfg tr) (category : config.Category) (ch : config.Channel)
    (categoryID channelID : String) (ep : GoMap Bool) (r : Reply)
    (hat : channelAt cfg tr = some (category, ch)) (hp : everyoneOf ch = some ep) :
    ChannelsPinned cfg
      (tr ++ [⟨.GuildChannelCreateComplex cfg.GuildID (channelData ch categoryID), .ok channelID⟩,
              ⟨.ChannelPermissionSet channelID cfg.GuildID PermissionOverwriteTypeRole
                (overwriteMasks ep).1 (overwriteMasks ep).2, r⟩]) := by
  refine h.append ?_ ?_
  · intro pre post gid d cid hsplit hty
    rcases List.pair_split hsplit with ⟨hpre, hx, hpost⟩ | ⟨-, hx, -⟩
    · subst hpre hpost
      simp only [Event.mk.injEq, Call.GuildChannelCreateComplex.injEq, Reply.ok.injEq] at hx
      obtain ⟨⟨hg, hd⟩, hid⟩ := hx
      subst hg hd hid
      refine ⟨category, ch, by simpa using hat, rfl, rfl, ?_⟩
      intro ep' hep
      rw [hp] at hep
      cases hep
      exact ⟨r, rfl⟩
    · simp at hx
  · intro pre post cid tid ty allow deny r' hsplit
    rcases List.pair_split hsplit with ⟨-, hx, -⟩ | ⟨hpre, hx, -⟩
    · simp at hx
    · subst hpre
      simp only [Event.mk.injEq, Call.ChannelPermissionSet.injEq] at hx
      obtain ⟨⟨hcid, htid, hty, ha, hd⟩, -⟩ := hx
      subst hcid htid hty ha hd
      exact ⟨tr, channelData ch categoryID, category, ch, ep, rfl, hat, rfl, hp, rfl, rfl,
        rfl, rfl⟩

end setup

namespace setup

/-- The inner loop of `setupChannels`, started when it is the turn of the first
channel of `chs`: it keeps `ChannelsPinned`, adds no category-create, and when it
ends without error it has created every channel of `chs` at its turn. -/
theorem setupChannelsInner_pinned (w : World) (cfg : Config) (i : Nat)
    (category : config.Category) (categoryID : String)
    (hcat : cfg.Channels.Categories[i]? = some category)
    (chs before : List config.Channel) (s : Session)
    (hch : category.Channels = before ++ chs)
    (hcc : categoryCount s.trace = i + 1) (hn : channelCount s.trace = before.length)
    (h : ChannelsPinned cfg s.trace) :
    ChannelsPinned cfg (setupChannelsInner w cfg categoryID chs s).1.trace ∧
    (∃ l, (setupChannelsInner w cfg categoryID chs s).1.trace = s.trace ++ l) ∧
    categoryCount (setupChannelsInner w cfg categoryID chs s).1.trace = i + 1 ∧
    ((setupChannelsInner w cfg categoryID chs s).2 = none →
      ∀ j ch, chs[j]? = some ch →
        ∃ pre post channelID,
          (setupChannelsInner w cfg categoryID chs s).1.trace
            = pre ++ ⟨.GuildChannelCreateComplex cfg.GuildID (channelData ch categoryID),
                .ok channelID⟩ :: post ∧
          categoryCount pre = i + 1 ∧ channelCount pre = before.length + j) := by
  induction chs generalizing before s with
  | nil => exact ⟨h, ⟨[], by simp [setupChannelsInner]⟩, hcc, by simp⟩
  | cons ch rest ih =>
    have hat : channelAt cfg s.trace = some (category, ch) :=
      channelAt_eq cfg s.trace i category before rest ch hcc hcat hch hn
    have hch1 : category.Channels = (before ++ [ch]) ++ rest := by
      rw [hch]; simp
    have hcc1 : categoryCount (s.request w
        (.GuildChannelCreateComplex cfg.GuildID (channelData ch categoryID))).1.trace = i + 1 := by
      rw [request_trace, categoryCount_concat, isCategoryCreate_channelData]
      simpa using hcc
    have hn1 : channelCount (s.request w
        (.GuildChannelCreateComplex cfg.GuildID (channelData ch categoryID))).1.trace
          = (before ++ [ch]).length := by
      rw [request_trace, channelCount_concat, isCategoryCreate_channelData,
        isChannelCreate_channelData]
      simp [hn]
    cases hr : w.resp s.trace.length with
    | error msg =>
      rw [setupChannelsInner_error w cfg categoryID ch rest s msg hr]
      refine ⟨?_, ⟨_, request_trace w s _⟩, hcc1, by simp⟩
      rw [request_trace, hr]
      exact h.concat_other _ (Or.inr rfl) rfl
    | ok channelID =>
      have hsplit0 : ∀ l, s.trace ++ ([(⟨.GuildChannelCreateComplex cfg.GuildID
            (channelData ch categoryID), w.resp s.trace.length⟩ : Event)] ++ l)
          = s.trace ++ ⟨.GuildChannelCreateComplex cfg.GuildID (channelData ch categoryID),
              .ok channelID⟩ :: l := by
        intro l
        rw [hr]
        rfl
      cases hp : everyoneOf ch with
      | none =>
        rw [setupChannelsInner_plain w cfg categoryID ch rest s channelID hr hp]
        have hP1 : ChannelsPinned cfg (s.request w
            (.GuildChannelCreateComplex cfg.GuildID (channelData ch categoryID))).1.trace := by
          rw [request_trace]
          exact h.concat_create category ch categoryID _ hat hp
        obtain ⟨hP, ⟨l, hl⟩, hlc, hlive⟩ := ih (before ++ [ch]) _ hch1 hcc1 hn1 hP1
        rw [request_trace, List.append_assoc] at hl
        refine ⟨hP, ⟨_, hl⟩, hlc, ?_⟩
        intro hnone j ch' hj
        cases j with
        | zero =>
          simp only [List.getElem?_cons_zero, Option.some.injEq] at hj
          subst hj
          exact ⟨s.trace, l, channelID, by rw [hl, hsplit0], hcc, by simpa using hn⟩
        | succ j =>
          simp only [List.getElem?_cons_succ] at hj
          obtain ⟨pre, post, cid, hsplit, h1, h2⟩ := hlive hnone j ch' hj
          refine ⟨pre, post, cid, hsplit, h1, ?_⟩
          rw [h2, List.length_append, List.length_singleton]
          omega
      | some ep =>
        have hP2 : ChannelsPinned cfg ((s.request w
            (.GuildChannelCreateComplex cfg.GuildID (channelData ch categoryID))).1.request w
              (.ChannelPermissionSet channelID cfg.GuildID PermissionOverwriteTypeRole
                (overwriteMasks ep).1 (overwriteMasks ep).2)).1.trace := by
          rw [request_trace, request_trace, hr, List.append_assoc]
          exact h.concat_pair category ch categoryID channelID ep _ hat hp
        have hcc2 : categoryCount ((s.request w
            (.GuildChannelCreateComplex cfg.GuildID (channelData ch categoryID))).1.request w
              (.ChannelPermissionSet channelID cfg.GuildID PermissionOverwriteTypeRole
                (overwriteMasks ep).1 (overwriteMasks ep).2)).1.trace = i + 1 := by
          rw [request_trace w
            (s.request w (.GuildChannelCreateComplex cfg.GuildID (channelData ch categoryID))).1,
            categoryCount_concat, hcc1]
          simp [Call.isCategoryCreate]
        have hn2 : channelCount ((s.request w
            (.GuildChannelCreateComplex cfg.GuildID (channelData ch categoryID))).1.request w
              (.ChannelPermissionSet channelID cfg.GuildID PermissionOverwriteTypeRole
                (overwriteMasks ep).1 (overwriteMasks ep).2)).1.trace
              = (before ++ [ch]).length := by
          rw [request_trace w
            (s.request w (.GuildChannelCreateComplex cfg.GuildID (channelData ch categoryID))).1,
            channelCount_concat, hn1]
          simp [Call.isCategoryCreate, Call.isChannelCreate]
        have hext2 : ∃ l2, ((s.request w
            (.GuildChannelCreateComplex cfg.GuildID (channelData ch categoryID))).1.request w
              (.ChannelPermissionSet channelID cfg.GuildID PermissionOverwriteTypeRole
                (overwriteMasks ep).1 (overwriteMasks ep).2)).1.trace
              = s.trace ++ ⟨.GuildChannelCreateComplex cfg.GuildID (channelData ch categoryID),
                  .ok channelID⟩ :: l2 := by
          have hs1 : (s.request w (.GuildChannelCreateComplex cfg.GuildID (channelData ch categoryID))).1.trace
              = s.trace ++ [⟨.GuildChannelCreateComplex cfg.GuildID (channelData ch categoryID),
                  .ok channelID⟩] := by
            rw [request_trace, hr]
          refine ⟨[⟨.ChannelPermissionSet channelID cfg.GuildID PermissionOverwriteTypeRole
            (overwriteMasks ep).1 (overwriteMasks ep).2,
            w.resp (s.request w (.GuildChannelCreateComplex cfg.GuildID (channelData ch categoryID))).1.trace.length⟩], ?_⟩
          rw [request_trace w
            (s.request w (.GuildChannelCreateComplex cfg.GuildID (channelData ch categoryID))).1,
            hs1, List.append_assoc]
          rfl
        obtain ⟨l2, hl2⟩ := hext2
        cases hr2 : w.resp (s.request w
            (.GuildChannelCreateComplex cfg.GuildID (channelData ch categoryID))).1.trace.length with
        | error msg =>
          rw [setupChannelsInner_perm_error w cfg categoryID ch rest s channelID msg ep hr hp hr2]
          exact ⟨hP2, ⟨_, hl2⟩, hcc2, by simp⟩
        | ok id2 =>
          rw [setupChannelsInner_perm_ok w cfg categoryID ch rest s channelID id2 ep hr hp hr2]
          obtain ⟨hP, ⟨l, hl⟩, hlc, hlive⟩ := ih (before ++ [ch]) _ hch1 hcc2 hn2 hP2
          rw [hl2] at hl
          refine ⟨hP, ⟨_, by rw [hl, List.append_assoc]⟩, hlc, ?_⟩
          intro hnone j ch' hj
          cases j with
          | zero =>
            simp only [List.getElem?_cons_zero, Option.some.injEq] at hj
            subst hj
            exact ⟨s.trace, l2 ++ l, channelID, by rw [hl]; simp, hcc, by simpa using hn⟩
          | succ j =>
            simp only [List.getElem?_cons_succ] at hj
            obtain ⟨pre, post, cid, hsplit, h1, h2⟩ := hlive hnone j ch' hj
            refine ⟨pre, post, cid, hsplit, h1, ?_⟩
            rw [h2, List.length_append, List.length_singleton]
            omega

end setup

namespace setup

/-- The loop over categories, started when `cbefore` are done: it keeps
`ChannelsPinned`, and when it ends without error it has created every channel of
every remaining category at its turn. -/
theorem setupChannelsLoop_pinned (w : World) (cfg : Config)
    (rest cbefore : List config.Category) (s : Session)
    (hcats : cfg.Channels.Categories = cbefore ++ rest)
    (hcc : categoryCount s.trace = cbefore.length) (h : ChannelsPinned cfg s.trace) :
    ChannelsPinned cfg (setupChannelsLoop w cfg rest s).1.trace ∧
    (∃ l, (setupChannelsLoop w cfg rest s).1.trace = s.trace ++ l) ∧
    ((setupChannelsLoop w cfg rest s).2 = none →
      ∀ i j category ch, rest[i]? = some category → category.Channels[j]? = some ch →
        ∃ pre post categoryID channelID,
          (setupChannelsLoop w cfg rest s).1.trace
            = pre ++ ⟨.GuildChannelCreateComplex cfg.GuildID (channelData ch categoryID),
                .ok channelID⟩ :: post ∧
          categoryCount pre = cbefore.length + i + 1 ∧ channelCount pre = j) := by
  induction rest generalizing cbefore s with
  | nil => exact ⟨h, ⟨[], by simp [setupChannelsLoop]⟩, by simp⟩
  | cons category rest ih =>
    have hget : cfg.Channels.Categories[cbefore.length]? = some category := by
      rw [hcats, List.getElem?_append_right (Nat.le_refl _)]
      simp
    have hcats1 : cfg.Channels.Categories = (cbefore ++ [category]) ++ rest := by
      rw [hcats]; simp
    have hP1 : ChannelsPinned cfg (s.request w
        (.GuildChannelCreateComplex cfg.GuildID (categoryData category))).1.trace := by
      rw [request_trace]
      exact h.concat_other _ (Or.inl (by simp [Call.isChannelCreate, categoryData])) rfl
    have hcc1 : categoryCount (s.request w
        (.GuildChannelCreateComplex cfg.GuildID (categoryData category))).1.trace
          = cbefore.length + 1 := by
      rw [request_trace, categoryCount_concat, hcc]
      simp [Call.isCategoryCreate, categoryData]
    have hn1 : channelCount (s.request w
        (.GuildChannelCreateComplex cfg.GuildID (categoryData category))).1.trace
          = ([] : List config.Channel).length := by
      rw [request_trace, channelCount_concat]
      simp [Call.isCategoryCreate, categoryData]
    cases hr : w.resp s.trace.length with
    | error msg =>
      rw [setupChannelsLoop_error w cfg category rest s msg hr]
      exact ⟨hP1, ⟨_, request_trace w s _⟩, by simp⟩
    | ok categoryID =>
      have hin := setupChannelsInner_pinned w cfg cbefore.length category categoryID hget
        category.Channels [] _ (by simp) hcc1 hn1 hP1
      rw [setupChannelsLoop_ok w cfg category rest s categoryID hr]
      rcases hres : setupChannelsInner w cfg categoryID category.Channels
        (s.request w (.GuildChannelCreateComplex cfg.GuildID (categoryData category))).1
        with ⟨s2, err⟩
      rw [hres] at hin
      obtain ⟨hP, ⟨l1, hl1⟩, hc2, hlive1⟩ := hin
      have hext1 : ∃ l, s2.trace = s.trace ++ l :=
        ⟨_, by rw [show s2.trace = _ from hl1, request_trace, List.append_assoc]⟩
      cases err with
      | some msg => exact ⟨hP, hext1, by simp⟩
      | none =>
        obtain ⟨hP', ⟨l2, hl2⟩, hlive2⟩ := ih (cbefore ++ [category]) s2 hcats1
          (by simpa using hc2) hP
        obtain ⟨l, hl⟩ := hext1
        refine ⟨hP', ⟨l ++ l2, ?_⟩, ?_⟩
        · show (setupChannelsLoop w cfg rest s2).1.trace = _
          rw [hl2, hl, List.append_assoc]
        · intro hnone i j category' ch hi hj
          cases i with
          | zero =>
            simp only [List.getElem?_cons_zero, Option.some.injEq] at hi
            subst hi
            obtain ⟨pre, post, cid, hsplit, h1, h2⟩ := hlive1 rfl j ch hj
            refine ⟨pre, post ++ l2, categoryID, cid, ?_, by simpa using h1, by simpa using h2⟩
            show (setupChannelsLoop w cfg rest s2).1.trace = _
            rw [hl2, show s2.trace = _ from hsplit]
            simp
          | succ i =>
            simp only [List.getElem?_cons_succ] at hi
            obtain ⟨pre, post, catID, cid, hsplit, h1, h2⟩ := hlive2 hnone i j category' ch hi hj
            refine ⟨pre, post, catID, cid, hsplit, ?_, h2⟩
            rw [h1, List.length_append, List.length_singleton]
            omega

/-- Role-create events keep `ChannelsPinned` and add no category-create. -/
theorem ChannelsPinned.append_roles {cfg : Config} (l tr : List Event)
    (h : ChannelsPinned cfg tr)
    (hl : ∀ e ∈ l, ∃ gid p, e.call = .GuildRoleCreate gid p) :
    ChannelsPinned cfg (tr ++ l) ∧ categoryCount (tr ++ l) = categoryCount tr := by
  induction l generalizing tr with
  | nil => exact ⟨by simpa using h, by simp⟩
  | cons e l ih =>
    obtain ⟨gid, p, he⟩ := hl e (List.mem_cons_self _ _)
    have h1 : ChannelsPinned cfg (tr ++ [e]) :=
      h.concat_other e (Or.inl (by rw [he]; rfl)) (by rw [he]; rfl)
    have hc1 : categoryCount (tr ++ [e]) = categoryCount tr := by
      rw [categoryCount_concat, he]
      simp [Call.isCategoryCreate]
    obtain ⟨h2, hc2⟩ := ih (tr ++ [e]) h1 (fun x hx => hl x (List.mem_cons_of_mem _ hx))
    rw [List.append_assoc] at h2 hc2
    exact ⟨h2, by rw [show tr ++ e :: l = tr ++ ([e] ++ l) from rfl, hc2, hc1]⟩

theorem setupRoles_pinned (w : World) (g : Guild) (cfg : Config) :
    ChannelsPinned cfg (setupRoles w ⟨g, []⟩ cfg).1.trace ∧
    categoryCount (setupRoles w ⟨g, []⟩ cfg).1.trace = 0 := by
  have h0 : ChannelsPinned cfg
      ([] ++ [(⟨.GuildRoles cfg.GuildID, w.resp 0⟩ : Event)]) :=
    (ChannelsPinned.nil cfg).concat_other _ (Or.inl rfl) rfl
  have hc0 : categoryCount ([] ++ [(⟨.GuildRoles cfg.GuildID, w.resp 0⟩ : Event)]) = 0 := by
    rw [categoryCount_concat]
    simp [categoryCount, Call.isCategoryCreate]
  cases hr : w.resp 0 with
  | error msg =>
    have hr' : w.resp (⟨g, []⟩ : Session).trace.length = .error msg := hr
    simp only [setupRoles, request_eq_error w ⟨g, []⟩ _ msg hr']
    rw [hr] at h0 hc0
    exact ⟨h0, hc0⟩
  | ok id =>
    have hr' : w.resp (⟨g, []⟩ : Session).trace.length = .ok id := hr
    simp only [setupRoles, request_eq_ok w ⟨g, []⟩ _ id hr']
    rw [hr] at h0 hc0
    obtain ⟨l, hl1, hl2⟩ := setupRolesLoop_new_events w cfg
      (g.roles.foldl (fun m role => GoMap.insert m role.Name role) []) cfg.Roles.Roles
      ⟨Guild.apply g (.GuildRoles cfg.GuildID) id, [] ++ [⟨.GuildRoles cfg.GuildID, .ok id⟩]⟩
    rw [hl1]
    obtain ⟨h1, hc1⟩ := ChannelsPinned.append_roles l _ h0
      (fun e he => by
        obtain ⟨d, -, hc⟩ := hl2 e he
        exact ⟨_, _, hc⟩)
    exact ⟨h1, by rw [hc1, hc0]⟩

theorem setupIntegrations_pinned (w : World) (cfg : Config) (s : Session)
    (h : ChannelsPinned cfg s.trace) :
    ChannelsPinned cfg (setupIntegrations w s cfg).1.trace ∧
    ∃ l, (setupIntegrations w s cfg).1.trace = s.trace ++ l := by
  cases hgh : cfg.Integrations.GitHub with
  | none =>
    simp only [setupIntegrations, hgh]
    exact ⟨h, [], by simp⟩
  | some gh =>
    cases hen : gh.Enabled with
    | false =>
      simp only [setupIntegrations, hgh, hen]
      exact ⟨h, [], by simp⟩
    | true =>
      have hstep : ∀ r, ChannelsPinned cfg (s.trace ++ [⟨.GuildChannels cfg.GuildID, r⟩]) :=
        fun r => h.concat_other _ (Or.inl rfl) rfl
      cases hr : w.resp s.trace.length with
      | error msg =>
        simp only [setupIntegrations, hgh, hen, if_true, request_eq_error w s _ msg hr]
        exact ⟨hstep _, _, rfl⟩
      | ok id =>
        simp only [setupIntegrations, hgh, hen, if_true, request_eq_ok w s _ id hr]
        split
        · exact ⟨hstep _, _, rfl⟩
        · have hstep2 : ∀ r, ChannelsPinned cfg
              ((s.trace ++ [⟨.GuildChannels cfg.GuildID, .ok id⟩])
                ++ [⟨.WebhookCreate (findTargetChannel gh.TargetChannel s.guild.channels)
                      "GitHub" "", r⟩]) :=
            fun r => (hstep _).concat_other _ (Or.inl rfl) rfl
          cases hr2 : w.resp (s.trace ++
              [(⟨Call.GuildChannels cfg.GuildID, .ok id⟩ : Event)]).length with
          | error msg =>
            rw [request_eq_error w _ _ msg hr2]
            exact ⟨hstep2 _, _, List.append_assoc _ _ _⟩
          | ok id2 =>
            rw [request_eq_ok w _ _ id2 hr2]
            exact ⟨hstep2 _, _, List.append_assoc _ _ _⟩

end setup

namespace setup

theorem Run_pinned (w : World) (g : Guild) (cfg : Config) :
    ChannelsPinned cfg (Run w g cfg).1.trace ∧
    ((Run w g cfg).2 = none →
      ∀ i j category ch, cfg.Channels.Categories[i]? = some category →
        category.Channels[j]? = some ch →
        ∃ pre post categoryID channelID,
          (Run w g cfg).1.trace
            = pre ++ ⟨.GuildChannelCreateComplex cfg.GuildID (channelData ch categoryID),
                .ok channelID⟩ :: post ∧
          categoryCount pre = i + 1 ∧ channelCount pre = j) := by
  cases hn : w.newErr with
  | some err =>
    simp only [Run, hn]
    exact ⟨ChannelsPinned.nil cfg, by simp⟩
  | none =>
    cases ho : w.openErr with
    | some err =>
      simp only [Run, hn, ho]
      exact ⟨ChannelsPinned.nil cfg, by simp⟩
    | none =>
      have h1 := setupRoles_pinned w g cfg
      rcases hs1 : setupRoles w ⟨g, []⟩ cfg with ⟨s1, e1⟩
      rw [hs1] at h1
      cases e1 with
      | some err =>
        simp only [Run, hn, ho, hs1]
        exact ⟨h1.1, by simp⟩
      | none =>
        have h2 := setupChannelsLoop_pinned w cfg cfg.Channels.Categories [] s1 (by simp)
          (by simpa using h1.2) h1.1
        rcases hs2 : setupChannels w s1 cfg with ⟨s2, e2⟩
        rw [show setupChannelsLoop w cfg cfg.Channels.Categories s1 = (s2, e2) from hs2] at h2
        cases e2 with
        | some err =>
          simp only [Run, hn, ho, hs1, hs2]
          exact ⟨h2.1, by simp⟩
        | none =>
          have h3 := setupIntegrations_pinned w cfg s2 h2.1
          rcases hs3 : setupIntegrations w s2 cfg with ⟨s3, e3⟩
          rw [hs3] at h3
          obtain ⟨h3P, l3, hl3⟩ := h3
          have hlive : ∀ i j category ch, cfg.Channels.Categories[i]? = some category →
              category.Channels[j]? = some ch →
              ∃ pre post categoryID channelID,
                s3.trace = pre ++ ⟨.GuildChannelCreateComplex cfg.GuildID
                    (channelData ch categoryID), .ok channelID⟩ :: post ∧
                categoryCount pre = i + 1 ∧ channelCount pre = j := by
            intro i j category ch hi hj
            obtain ⟨pre, post, catID, cid, hsplit, hc1, hc2⟩ := h2.2.2 rfl i j category ch hi hj
            refine ⟨pre, post ++ l3, catID, cid, ?_, by simpa using hc1, hc2⟩
            rw [show s3.trace = _ from hl3, show s2.trace = _ from hsplit]
            simp
          cases e3 with
          | some err =>
            simp only [Run, hn, ho, hs1, hs2, hs3]
            exact ⟨h3P, by simp⟩
          | none =>
            simp only [Run, hn, ho, hs1, hs2, hs3]
            exact ⟨h3P, fun _ => hlive⟩

/-- C9, amended: in the trace of `setup.Run`, the `j`-th channel-create after the
`i`-th category-create is the creation of the `j`-th channel of the `i`-th
configured category (`channelAt`), and when that channel's permissions have the
key `everyone` the very next call sets the overwrite of the new channel for the
guild ID. Every set-permission-overwrite call of the run is such a call, for the
channel created just before it, with allow the OR over the names mapped to true
and deny over those mapped to false: no other key gets a call. In a run without
error every configured channel is created at its turn, so every configured
channel with the key `everyone` gets its overwrite. -/
theorem Run_everyone_overwrite (w : World) (g : Guild) (cfg : Config) :
    (∀ pre post gid d channelID,
      (Run w g cfg).1.trace
        = pre ++ ⟨.GuildChannelCreateComplex gid d, .ok channelID⟩ :: post →
      d.Type_ ≠ ChannelTypeGuildCategory →
      ∃ category ch, channelAt cfg pre = some (category, ch) ∧
        gid = cfg.GuildID ∧ d = channelData ch d.ParentID ∧
        ∀ ep, everyoneOf ch = some ep →
          ∃ r, post.head? = some
            ⟨.ChannelPermissionSet channelID cfg.GuildID PermissionOverwriteTypeRole
              (overwriteMasks ep).1 (overwriteMasks ep).2, r⟩) ∧
    (∀ pre post cid tid ty allow deny r,
      (Run w g cfg).1.trace
        = pre ++ ⟨.ChannelPermissionSet cid tid ty allow deny, r⟩ :: post →
      ∃ pre' d category ch ep,
        pre = pre' ++ [⟨.GuildChannelCreateComplex cfg.GuildID d, .ok cid⟩] ∧
        channelAt cfg pre' = some (category, ch) ∧
        d = channelData ch d.ParentID ∧ everyoneOf ch = some ep ∧
        tid = cfg.GuildID ∧ ty = PermissionOverwriteTypeRole ∧
        allow = ((ep.filter fun kv => kv.2).map fun kv => permissionValue kv.1).foldl
          (· ||| ·) 0 ∧
        deny = ((ep.filter fun kv => !kv.2).map fun kv => permissionValue kv.1).foldl
          (· ||| ·) 0) ∧
    ((Run w g cfg).2 = none →
      ∀ i j category ch, cfg.Channels.Categories[i]? = some category →
        category.Channels[j]? = some ch →
        ∃ pre post categoryID channelID,
          (Run w g cfg).1.trace
            = pre ++ ⟨.GuildChannelCreateComplex cfg.GuildID (channelData ch categoryID),
                .ok channelID⟩ :: post ∧
          categoryCount pre = i + 1 ∧ channelCount pre = j ∧
          ∀ ep, everyoneOf ch = some ep →
            ∃ r, post.head? = some
              ⟨.ChannelPermissionSet channelID cfg.GuildID PermissionOverwriteTypeRole
                (overwriteMasks ep).1 (overwriteMasks ep).2, r⟩) := by
  obtain ⟨hP, hlive⟩ := Run_pinned w g cfg
  refine ⟨hP.1, ?_, ?_⟩
  · intro pre post cid tid ty allow deny r hsplit
    obtain ⟨pre', d, category, ch, ep, h1, h2, h3, h4, h5, h6, h7, h8⟩ :=
      hP.2 pre post cid tid ty allow deny r hsplit
    refine ⟨pre', d, category, ch, ep, h1, h2, h3, h4, h5, h6, ?_, ?_⟩
    · rw [h7, overwriteMasks_eq]
    · rw [h8, overwriteMasks_eq]
  · intro hnone i j category ch hi hj
    obtain ⟨pre, post, catID, cid, hsplit, hc1, hc2⟩ := hlive hnone i j category ch hi hj
    refine ⟨pre, post, catID, cid, hsplit, hc1, hc2, ?_⟩
    obtain ⟨category', ch', hat, -, -, hep⟩ := hP.1 pre post cfg.GuildID
      (channelData ch catID) cid hsplit (channelType_ne_category ch)
    have hat' : channelAt cfg pre = some (category, ch) := by
      simp only [channelAt, hc1, hi, hc2, hj, Option.map_some']
    rw [hat'] at hat
    simp only [Option.some.injEq, Prod.mk.injEq] at hat
    obtain ⟨-, hch⟩ := hat
    subst hch
    exact hep

theorem Run_everyone_overwrite_witness :
    (Run samples.okWorld samples.emptyGuild samples.cfgFull).2 = none ∧
    ∀ category ch, samples.cfgFull.Channels.Categories[0]? = some category →
      category.Channels[0]? = some ch →
      ∃ pre post categoryID channelID,
        (Run samples.okWorld samples.emptyGuild samples.cfgFull).1.trace
          = pre ++ ⟨.GuildChannelCreateComplex samples.cfgFull.GuildID
              (channelData ch categoryID), .ok channelID⟩ :: post ∧
        categoryCount pre = 0 + 1 ∧ channelCount pre = 0 ∧
        ∀ ep, everyoneOf ch = some ep →
          ∃ r, post.head? = some
            ⟨.ChannelPermissionSet channelID samples.cfgFull.GuildID PermissionOverwriteTypeRole
              (overwriteMasks ep).1 (overwriteMasks ep).2, r⟩ :=
  ⟨by decide,
   (Run_everyone_overwrite samples.okWorld samples.emptyGuild samples.cfgFull).2.2
     (by decide) 0 0⟩

end setup

namespace setup

/-- On `cfgTwin` the overwrite follows the `general` created under `Public`, not
the one created under `Staff`. -/
theorem Run_twin_channels :
    (Run samples.okWorld samples.emptyGuild samples.cfgTwin).1.trace.map (·.call)
      = [Call.GuildRoles "g",
         Call.GuildChannelCreateComplex "g" ⟨"Staff", 4, "", 0, ""⟩,
         Call.GuildChannelCreateComplex "g" ⟨"general", 0, "", 0, "ii"⟩,
         Call.GuildChannelCreateComplex "g" ⟨"Public", 4, "", 0, ""⟩,
         Call.GuildChannelCreateComplex "g" ⟨"general", 0, "", 0, "iiii"⟩,
         Call.ChannelPermissionSet "iiiii" "g" 0 0x800 0] ∧
    channelAt samples.cfgTwin
        ((Run samples.okWorld samples.emptyGuild samples.cfgTwin).1.trace.take 2)
      = some (⟨"Staff", 0, [⟨"general", "text", "", 0, none, []⟩]⟩,
              ⟨"general", "text", "", 0, none, []⟩) ∧
    (channelAt samples.cfgTwin
        ((Run samples.okWorld samples.emptyGuild samples.cfgTwin).1.trace.take 4)).map
        (fun p => everyoneOf p.2)
      = some (some [("send_messages", true)]) := by
  decide

end setup

end Discord
